import Mathlib

/-!
DTIProcessToolkit: a verification development for `dtiestim`.

A shallow embedding of `Applications/dtiestim.cxx`.  The values of floating
point variables are embedded as rationals; C library routines, ITK filters and
the file system are explicit parameters of the model, and so are the floating
point operations whose rounding a statement depends on (the sums and the
quotient of the IDWI block, the arithmetic of the fiberstats statistics).
-/

set_option autoImplicit false

deriving instance DecidableEq for Except

/-! ## Rounding to `double` -/

namespace Binary64

/-- The largest `k` with `2 ^ k ≤ n`, for `n ≥ 1` and `fuel ≥ k`. -/
def log2Fuel : Nat → Nat → Nat
  | 0, _ => 0
  | fuel + 1, n => if n < 2 then 0 else log2Fuel fuel (n / 2) + 1

/-- The largest `k` with `2 ^ k ≤ a`, for a positive rational `a`. -/
def floorLog2 (a : ℚ) : Int :=
  let k : Int := (log2Fuel a.num.natAbs a.num.natAbs : Int) - (log2Fuel a.den a.den : Int)
  if (2 : ℚ) ^ k ≤ a then k else k - 1

/-- The nearest integer, a tie going to the even one. -/
def roundHalfEven (x : ℚ) : Int :=
  if x - (⌊x⌋ : ℤ) < 1 / 2 then ⌊x⌋
  else if 1 / 2 < x - (⌊x⌋ : ℤ) then ⌊x⌋ + 1
  else if ⌊x⌋ % 2 = 0 then ⌊x⌋ else ⌊x⌋ + 1

/-- The nearest number with a significand of `p` binary digits, a tie going to
the even significand (the exponent is not bounded). -/
def roundToPrecision (p : Nat) (x : ℚ) : ℚ :=
  if x = 0 then 0
  else
    let e : Int := floorLog2 |x| - ((p : Int) - 1)
    (roundHalfEven (x / (2 : ℚ) ^ e) : ℚ) * (2 : ℚ) ^ e

/-- Rounding to the nearest `double` (IEEE 754 binary64, round to nearest, ties
to even), for the values of the normal range. -/
def round (x : ℚ) : ℚ := roundToPrecision 53 x

end Binary64

namespace DTIEstim

/-! ## Option validation (`validate`, dtiestim.cxx lines 70-106) -/

/-- The `EstimationType` enumeration of dtiestim.cxx. -/
inductive EstimationType where
  | LinearEstimate
  | NonlinearEstimate
  | WeightedEstimate
  | MaximumLikelihoodEstimate
  deriving DecidableEq, Repr

/-- Exceptions `validate` can raise. -/
inductive ValidateError where
  | multiple_occurrences
  | multiple_values_not_allowed
  | at_least_one_value_required
  | validation_error (msg : String)
  deriving DecidableEq, Repr

/-- The message of the `validation_error` thrown by `validate`. -/
def estimationTypeMessage : String :=
  "Estimation type invalid.  Only \"lls\", \"nls\", \"wls\", and \"ml\" allowed."

/-- The string comparison chain of `validate`. -/
def validateString (s : String) : Except ValidateError EstimationType :=
  if s = "lls" ∨ s = "linear" then .ok .LinearEstimate
  else if s = "nls" ∨ s = "nonlinear" then .ok .NonlinearEstimate
  else if s = "wls" ∨ s = "weighted" then .ok .WeightedEstimate
  else if s = "ml" then .ok .MaximumLikelihoodEstimate
  else .error (.validation_error estimationTypeMessage)

/-- The function `validate(boost::any& v, values, EstimationType*, int)`:
`v` is the previously stored value (`none` when the `boost::any` is empty),
`check_first_occurrence` rejects a second assignment and `get_single_string`
requires exactly one string. -/
def validate (v : Option EstimationType) (values : List String) :
    Except ValidateError EstimationType :=
  match v with
  | some _ => .error .multiple_occurrences
  | none =>
    match values with
    | [] => .error .at_least_one_value_required
    | [s] => validateString s
    | _ :: _ :: _ => .error .multiple_values_not_allowed

/-! ## Numeric and image types

`double` and `ScalarPixelType` values are embedded in `ℚ`; an image is the list
of its voxel values in buffer order. -/

/-- A gradient direction (`GradientDirectionType`, a `vnl_vector_fixed<double,3>`). -/
abbrev Vec3 := Fin 3 → ℚ

/-- A `vnl_matrix<double>(3,3)`. -/
abbrev Mat3 := Matrix (Fin 3) (Fin 3) ℚ

/-- A scalar image: one value per voxel. -/
abbrev ScalarImage := List ℚ

/-- A `VectorImageType`: one signal vector (all channels) per voxel. -/
abbrev VectorImage := List (List ℚ)

/-- A `TensorImageType`: the tensor coefficients of every voxel. -/
abbrev TensorImage := List (List ℚ)

/-! ## Metadata dictionary (`itk::MetaDataDictionary`) -/

/-- The payload of a dictionary entry: a `std::string`, a
`std::vector<std::vector<double>>` holding a 3x3 frame (`m j i` is
`nrrdmf[j][i]`), or an object of some other type. -/
inductive MetaValue where
  | str (s : String)
  | frame (m : Fin 3 → Fin 3 → ℚ)
  | other
  deriving DecidableEq

/-- The dictionary, as the list of its entries in key order (the order in which
`GetKeys` enumerates the underlying `std::map`). -/
abbrev MetaDataDictionary := List (String × MetaValue)

/-- The constant `NRRD_MEASUREMENT_KEY`. -/
def NRRD_MEASUREMENT_KEY : String := "NRRD_measurement frame"

/-- The method `dict.GetKeys()`. -/
def GetKeys (dict : MetaDataDictionary) : List String := dict.map Prod.fst

/-- The method `dict.HasKey(key)`. -/
def HasKey (dict : MetaDataDictionary) (key : String) : Bool :=
  dict.any (fun e => e.1 == key)

/-- Entry lookup by key. -/
def findEntry (dict : MetaDataDictionary) (key : String) : Option MetaValue :=
  match dict with
  | [] => none
  | (k, v) :: rest => if k = key then some v else findEntry rest key

/-- The call `itk::ExposeMetaData<std::string>(dict, key, t)` on an empty `t`:
`t` is left empty when the key is missing or holds another type. -/
def ExposeString (dict : MetaDataDictionary) (key : String) : String :=
  match findEntry dict key with
  | some (.str s) => s
  | _ => ""

/-- The call `itk::ExposeMetaData<std::vector<std::vector<double> > >`.  When the
entry holds another type the C++ vector stays empty and indexing it is
undefined; the model reads zeros there. -/
def ExposeFrame (dict : MetaDataDictionary) (key : String) : Fin 3 → Fin 3 → ℚ :=
  match findEntry dict key with
  | some (.frame m) => m
  | _ => fun _ _ => 0

/-- Overwrites the value stored under `key`. -/
def replaceEntry (dict : MetaDataDictionary) (key : String) (v : MetaValue) :
    MetaDataDictionary :=
  dict.map (fun e => if e.1 = key then (e.1, v) else e)

/-- Inserts a new entry at its place in key order. -/
def insertEntry (dict : MetaDataDictionary) (key : String) (v : MetaValue) :
    MetaDataDictionary :=
  match dict with
  | [] => [(key, v)]
  | (k, w) :: rest =>
    if key < k then (key, v) :: (k, w) :: rest else (k, w) :: insertEntry rest key v

/-- The call `itk::EncapsulateMetaData(dict, key, v)`: the assignment
`dict[key] = v` on the ordered map. -/
def EncapsulateMetaData (dict : MetaDataDictionary) (key : String) (v : MetaValue) :
    MetaDataDictionary :=
  if HasKey dict key then replaceEntry dict key v else insertEntry dict key v

/-! ## C string routines -/

/-- Substring search on character lists. -/
def isInfixOfChars (pat : List Char) : List Char → Bool
  | [] => pat.isPrefixOf []
  | c :: cs => pat.isPrefixOf (c :: cs) || isInfixOfChars pat cs

/-- The test `s.find(pat) != std::string::npos`. -/
def contains (s pat : String) : Bool := isInfixOfChars pat.toList s.toList

/-- The expression `it->substr(it->find_last_of('_')+1)`: the characters after
the last underscore, the whole key when there is none (`npos + 1 = 0`). -/
def afterLastUnderscore (key : String) : List Char :=
  (key.toList.reverse.takeWhile (fun c => c != '_')).reverse

/-- The predicate `isspace` in the C locale. -/
def isSpace (c : Char) : Bool :=
  c.toNat = 32 || (9 ≤ c.toNat && c.toNat ≤ 13)

/-- Value of the leading decimal digits of a character list. -/
def digitsValue : List Char → Nat → Nat
  | [], n => n
  | c :: cs, n => if c.isDigit then digitsValue cs (10 * n + (c.toNat - 48)) else n

/-- The routine `atoi`: skips leading white space, reads an optional sign and
the decimal digits that follow; `0` when there are none. -/
def atoi (s : List Char) : Int :=
  match s.dropWhile isSpace with
  | '-' :: cs => - (digitsValue cs 0 : Int)
  | '+' :: cs => (digitsValue cs 0 : Int)
  | cs => (digitsValue cs 0 : Int)

/-- Width of `unsigned int`. -/
def UINT_MOD : Nat := 4294967296

/-- Number of non-negative values of `int` (`INT_MAX + 1`). -/
def INT_MOD : Nat := 2147483648

/-- Conversion of an `int` to `unsigned int`. -/
def toUnsigned (z : Int) : Nat := (z % (UINT_MOD : Int)).toNat

/-! ## Gradient container (`itk::VectorContainer<unsigned int, GradientType>`) -/

/-- The method `InsertElement(i, g)`: the vector grows to `i + 1` elements when
`i` is past the end (new slots hold a default-constructed element `dflt`), then
slot `i` is assigned. -/
def InsertElement (dflt : Vec3) (c : List Vec3) (i : Nat) (g : Vec3) : List Vec3 :=
  if i < c.length then c.set i g
  else c ++ List.replicate (i - c.length) dflt ++ [g]

/-- The method `GetElement(i)`.  It is an unchecked `operator[]`; a read past the
end is undefined in C++ and yields `dflt` in the model. -/
def GetElement (dflt : Vec3) (c : List Vec3) (i : Nat) : Vec3 := c.getD i dflt

/-- The baseline test `g[0] == 0 && g[1] == 0 && g[2] == 0`. -/
def isBaseline (g : Vec3) : Bool :=
  decide (g 0 = 0) && decide (g 1 = 0) && decide (g 2 = 0)

/-- Reorientation of a table: `g = transform * g` for every stored direction. -/
def reorient (transform : Mat3) (table : List Vec3) : List Vec3 :=
  table.map (fun g => transform.mulVec g)

/-! ## External collaborators -/

/-- The properties set on a reconstruction filter before `Update()`; a property
the program never sets is `none`. -/
structure FilterSettings where
  gradients : List Vec3
  image : VectorImage
  bValue : ℚ
  threshold : ℚ
  step : Option ℚ
  sigma : Option ℚ
  initialTensor : Option TensorImage
  numberOfIterations : Option Nat
  numberOfThreads : Option Nat
  deriving DecidableEq

/-- Library routines and ITK filters used by `main` whose code is outside
dtiestim.cxx. -/
structure Ext where
  /-- The C routine `atof`. -/
  atof : String → ℚ
  /-- Stream extraction `iss >> g[0] >> g[1] >> g[2]` into a fresh `GradientType`. -/
  parseGradient : String → Vec3
  /-- The expression `vnl_svd<double>(m).inverse()`. -/
  svdInverse : Mat3 → Mat3
  /-- A default-constructed `GradientType`. -/
  defaultGradient : Vec3
  /-- The threshold of `itk::OtsuThresholdImageCalculator`. -/
  otsu : ScalarImage → ℚ
  /-- The conversion `static_cast<ScalarPixelType>` of a `double`. -/
  toScalar : ℚ → ℚ
  /-- The constant `itk::NumericTraits<ScalarPixelType>::max()`. -/
  scalarMax : ℚ
  /-- The inside value of `itk::BinaryThresholdImageFilter`. -/
  insideValue : ℚ
  /-- The pixel function of `itk::LogImageFilter`. -/
  log : ℚ → ℚ
  /-- The pixel function of `itk::ExpImageFilter`. -/
  exp : ℚ → ℚ
  /-- The pixel function of `itk::AddImageFilter` on `RealImageType`: the sum of
  two `double`s, first input first. -/
  add : ℚ → ℚ → ℚ
  /-- The quotient of a `double` by an `int` (line 601), the divisor converted. -/
  div : ℚ → ℚ → ℚ
  /-- The four reconstruction filters, by estimation type. -/
  estimator : EstimationType → FilterSettings → TensorImage

/-- A volume as delivered by the DWI reader. -/
structure DWIVolume where
  image : VectorImage
  direction : Mat3
  dict : MetaDataDictionary

/-- The file system: what a reader yields for a file name (`none` when it
throws) and whether a writer succeeds on a file name. -/
structure World where
  readDWI : String → Option DWIVolume
  readMask : String → Option ScalarImage
  writable : String → Bool

/-- The method `Update()` of an `itk::ImageFileReader<LabelImageType>` whose
file name is `fileName`; a reader without file name throws. -/
def maskReaderUpdate (W : World) (fileName : String) : Option ScalarImage :=
  if fileName = "" then none else W.readMask fileName

/-! ## Program options (`po::variables_map vm`) -/

/-- The parsed options.  `method`, `weight-iterations` and `step` are declared
with a default value. -/
structure VariablesMap where
  help : Bool
  brainMask : Option String
  badRegionMask : Option String
  threshold : Option ℚ
  idwi : Option String
  method : EstimationType
  weightIterations : Nat
  step : Option ℚ
  sigma : Option ℚ
  verbose : Bool
  dwiImage : Option String
  tensorOutput : Option String

/-- The value `vm[name].as<std::string>()`, for the string-valued options
declared at lines 116-150; `none` when the variable is not stored. -/
def VariablesMap.asString (vm : VariablesMap) (name : String) : Option String :=
  if name = "brain-mask" then vm.brainMask
  else if name = "bad-region-mask" then vm.badRegionMask
  else if name = "idwi" then vm.idwi
  else if name = "dwi-image" then vm.dwiImage
  else if name = "tensor-output" then vm.tensorOutput
  else none

/-- The method `vm.count(name)`: `1` when the option is stored, else `0`.  Only
the options declared at lines 116-150 can be stored. -/
def VariablesMap.count (vm : VariablesMap) (name : String) : Nat :=
  if name = "help" then (if vm.help then 1 else 0)
  else if name = "verbose" then (if vm.verbose then 1 else 0)
  else if name = "threshold" then (if vm.threshold.isSome then 1 else 0)
  else if name = "method" then 1
  else if name = "weight-iterations" then 1
  else if name = "step" then (if vm.step.isSome then 1 else 0)
  else if name = "sigma" then (if vm.sigma.isSome then 1 else 0)
  else if (vm.asString name).isSome then 1 else 0

/-- Lines 196-208: the step size, or `none` when `main` returns `EXIT_FAILURE`. -/
def readStep (vm : VariablesMap) : Option ℚ :=
  match vm.step with
  | some s => some s
  | none =>
    if vm.method = .NonlinearEstimate ∨ vm.method = .MaximumLikelihoodEstimate then none
    else some (1 / 100000000)

/-- Lines 209-221: the noise level, or `none` when `main` returns `EXIT_FAILURE`. -/
def readSigma (vm : VariablesMap) : Option ℚ :=
  match vm.sigma with
  | some s => some s
  | none => if vm.method = .MaximumLikelihoodEstimate then none else some 0

/-! ## Reading the header (lines 266-373) -/

/-- The matrix `mf`: `mf(i,j) = nrrdmf[j][i]`. -/
def measurementFrame (dict : MetaDataDictionary) : Mat3 :=
  Matrix.of (fun i j => ExposeFrame dict NRRD_MEASUREMENT_KEY j i)

/-- The matrix `transform` (lines 268-318). -/
def headerTransform (X : Ext) (vol : DWIVolume) : Mat3 :=
  if HasKey vol.dict NRRD_MEASUREMENT_KEY then
    X.svdInverse vol.direction * measurementFrame vol.dict
  else 1

/-- The dictionary after lines 272-323: the measurement frame, when present, is
overwritten with `nrrdmf[j][i] = imgf(i,j)` and the modality, when present, with
`"DTMRI"`. -/
def rewriteDict (vol : DWIVolume) : MetaDataDictionary :=
  let d1 :=
    if HasKey vol.dict NRRD_MEASUREMENT_KEY then
      EncapsulateMetaData vol.dict NRRD_MEASUREMENT_KEY (.frame (fun j i => vol.direction i j))
    else vol.dict
  if HasKey d1 "modality" then EncapsulateMetaData d1 "modality" (.str "DTMRI") else d1

/-- The variables written by the loops over the keys. -/
structure KeyState where
  readbvalue : Bool
  b0 : ℚ
  gradientContainer : List Vec3

/-- The index read from a key (lines 347-349 and 364-365): `atoi` of the
characters after the last underscore, converted to `unsigned int`. -/
def keyIndex (key : String) : Nat := toUnsigned (atoi (afterLastUnderscore key))

/-- Body of the first loop over the keys (lines 329-352). -/
def keyStep (X : Ext) (dict : MetaDataDictionary) (transform : Mat3) (st : KeyState)
    (key : String) : KeyState :=
  if contains key "DWMRI_b-value" then
    { st with readbvalue := true, b0 := X.atof (ExposeString dict key) }
  else if contains key "DWMRI_gradient" then
    let g := transform.mulVec (X.parseGradient (ExposeString dict key))
    let ind := keyIndex key
    { st with gradientContainer := InsertElement X.defaultGradient st.gradientContainer ind g }
  else st

/-- The first loop over the keys (lines 325-353). -/
def parseKeys (X : Ext) (dict : MetaDataDictionary) (transform : Mat3) (keys : List String) :
    KeyState :=
  keys.foldl (keyStep X dict transform) ⟨false, 0, []⟩

/-- Lines 367-370 for one `DWMRI_NEX` entry with index `indtorep` and count
`numreps`: the loop `for (i = indtorep+1; i < indtorep+numreps; i++)` in
`unsigned int` arithmetic. -/
def expandNEX (dflt : Vec3) (c : List Vec3) (indtorep numreps : Nat) : List Vec3 :=
  let g := GetElement dflt c indtorep
  let first := (indtorep + 1) % UINT_MOD
  let stop := (indtorep + numreps) % UINT_MOD
  (List.range' first (stop - first)).foldl (fun c i => InsertElement dflt c i g) c

/-- Body of the second loop over the keys (lines 357-371). -/
def nexStep (X : Ext) (dict : MetaDataDictionary) (c : List Vec3) (key : String) : List Vec3 :=
  if contains key "DWMRI_NEX" then
    let numreps := toUnsigned (atoi (ExposeString dict key).toList)
    let indtorep := keyIndex key
    expandNEX X.defaultGradient c indtorep numreps
  else c

/-- What `main` has computed from the header when it reaches line 384. -/
structure Header where
  dict : MetaDataDictionary
  transform : Mat3
  readbvalue : Bool
  b0 : ℚ
  parsedGradients : List Vec3
  gradientContainer : List Vec3

/-- Lines 266-373. -/
def readHeader (X : Ext) (vol : DWIVolume) : Header :=
  let transform := headerTransform X vol
  let dict := rewriteDict vol
  let keys := GetKeys dict
  let st := parseKeys X dict transform keys
  { dict := dict
    transform := transform
    readbvalue := st.readbvalue
    b0 := st.b0
    parsedGradients := st.gradientContainer
    gradientContainer := keys.foldl (nexStep X dict) st.gradientContainer }

/-! ## Masking (lines 393-453) -/

/-- Modelled from the spec: `itk::VectorMaskImageFilter` (a filter class of the
toolkit, its code is outside dtiestim.cxx).  A voxel is kept iff its mask value is non-zero, other
voxels have their whole signal vector zeroed; a mask on another grid is an error
(`none`). -/
def VectorMaskImageFilter (img : VectorImage) (mask : ScalarImage) : Option VectorImage :=
  if img.length = mask.length then
    some (List.zipWith (fun v m => if m ≠ 0 then v else v.map (fun _ => 0)) img mask)
  else none

/-- Modelled from the spec: `itk::VectorMaskNegatedImageFilter` (a filter class of
the toolkit, its code is outside dtiestim.cxx).  A voxel is kept iff its mask value is `≤ 0`, other
voxels have their whole signal vector zeroed; a mask on another grid is an error
(`none`). -/
def VectorMaskNegatedImageFilter (img : VectorImage) (mask : ScalarImage) :
    Option VectorImage :=
  if img.length = mask.length then
    some (List.zipWith (fun v m => if m ≤ 0 then v else v.map (fun _ => 0)) img mask)
  else none

/-- What `main` did, in program order. -/
inductive Event where
  | readDWI (file : String)
  | maskBrain (file : String)
  | maskBadRegion
  | otsu (channel : Nat) (value : ℚ)
  | writeThresholdMask (file : String) (channel : Nat) (mask : ScalarImage) (ok : Bool)
  | writeIDWI (file : String) (img : ScalarImage) (ok : Bool)
  | estimate (kind : EstimationType) (s : FilterSettings)
  | writeTensor (file : String) (tensors : TensorImage) (dict : MetaDataDictionary)
  deriving DecidableEq

/-- How `main` ends: one of its two return values, or abnormal termination (an
uncaught exception, a null image dereferenced). -/
inductive ExitCode where
  | EXIT_SUCCESS
  | EXIT_FAILURE
  | crash
  deriving DecidableEq, Repr

/-- Outcome of a run. -/
structure Run where
  exit : ExitCode
  events : List Event
  deriving DecidableEq

/-- Lines 393-422; `none` when the block returns `EXIT_FAILURE`. -/
def brainMaskStage (W : World) (vm : VariablesMap) (dwi : VectorImage) :
    Option (VectorImage × List Event) :=
  if vm.count "brain-mask" ≠ 0 then
    match maskReaderUpdate W ((vm.asString "brain-mask").getD "") with
    | none => none
    | some m =>
      match VectorMaskImageFilter dwi m with
      | none => none
      | some out => some (out, [.maskBrain ((vm.asString "brain-mask").getD "")])
  else some (dwi, [])

/-- Lines 424-453; `none` when the block returns `EXIT_FAILURE`.  The reader of
this block is updated without a file name having been set. -/
def badRegionMaskStage (W : World) (vm : VariablesMap) (dwi : VectorImage) :
    Option (VectorImage × List Event) :=
  if vm.count "bad-region-mask" ≠ 0 then
    match maskReaderUpdate W "" with
    | none => none
    | some m =>
      match VectorMaskNegatedImageFilter dwi m with
      | none => none
      | some out => some (out, [.maskBadRegion])
  else some (dwi, [])

/-! ## Threshold (lines 455-525) -/

/-- The filter `itk::VectorIndexSelectionCastImageFilter` with `SetIndex(index)`. -/
def extractChannel (img : VectorImage) (index : Nat) : ScalarImage :=
  img.map (fun v => v.getD index 0)

/-- The channel index given to `baselineextract->SetIndex` (line 471). -/
def otsuChannel : Nat := 0

/-- Lines 459-484: the threshold; `raw` is the output of the DWI reader. -/
def computeThreshold (X : Ext) (vm : VariablesMap) (raw : VectorImage) : ℚ × List Event :=
  if vm.count "threshold" ≠ 0 then (vm.threshold.getD 0, [])
  else
    let t := X.otsu (extractChannel raw otsuChannel)
    (X.toScalar (9 / 10 * t), [.otsu otsuChannel t])

/-- Lines 494-502: the channel selected on `b0extract`, the last baseline of the
table (the filter's initial index `0` when there is none). -/
def lastBaselineIndex : List Vec3 → Nat → Nat → Nat
  | [], _, sel => sel
  | g :: gs, directionIndex, sel =>
    lastBaselineIndex gs (directionIndex + 1) (if isBaseline g then directionIndex else sel)

/-- Lines 504-509: `itk::BinaryThresholdImageFilter` between `threshold` and the
largest scalar. -/
def thresholdMaskImage (X : Ext) (img : ScalarImage) (threshold : ℚ) : ScalarImage :=
  img.map (fun v => if threshold ≤ v ∧ v ≤ X.scalarMax then X.insideValue else 0)

/-- Lines 486-525; `none` when `vm["threshold-mask"]` holds no string (an
exception no handler of `main` catches). -/
def thresholdMaskStage (X : Ext) (W : World) (vm : VariablesMap) (grads : List Vec3)
    (dwi : VectorImage) (threshold : ℚ) : Option (List Event) :=
  if vm.count "threshold-mask" ≠ 0 then
    let index := lastBaselineIndex grads 0 0
    let mask := thresholdMaskImage X (extractChannel dwi index) threshold
    match vm.asString "threshold-mask" with
    | none => none
    | some file => some [.writeThresholdMask file index mask (W.writable file)]
  else some []

/-! ## IDWI (lines 527-623) -/

/-- The method `Update()` of `biextract` (a `VectorIndexSelectionCastImageFilter`)
with `SetIndex(index)`, as the log filters of the loop trigger it: `none` when it
throws, the index being no component of the image.  A vector image has one
number of components; in the model it is read at every voxel. -/
def selectChannel (dwi : VectorImage) (index : Nat) : Option ScalarImage :=
  if dwi.all (fun v => decide (index < v.length)) then some (extractChannel dwi index) else none

/-- The variables of the accumulation loop. -/
structure IdwiState where
  numberNonB0Directions : Nat
  idwiImage : Option ScalarImage

/-- Body of the loop at lines 539-590.  An exception of the filters inside a
`try` block is caught there (lines 558-562 and 579-583): `idwiImage` keeps its
value, and the counter is incremented all the same (line 588).  The add filter
throws as well when `idwiImage` is still null. -/
def idwiStep (X : Ext) (dwi : VectorImage) (st : IdwiState) (directionIndex : Nat) (g : Vec3) :
    IdwiState :=
  if g 0 ≠ 0 ∨ g 1 ≠ 0 ∨ g 2 ≠ 0 then
    match selectChannel dwi directionIndex with
    | none => ⟨st.numberNonB0Directions + 1, st.idwiImage⟩
    | some channel =>
      let logImage := channel.map X.log
      if st.numberNonB0Directions = 0 then
        ⟨st.numberNonB0Directions + 1, some logImage⟩
      else
        ⟨st.numberNonB0Directions + 1,
          match st.idwiImage with
          | some acc => some (List.zipWith X.add logImage acc)
          | none => none⟩
  else st

/-- The pairs `(directionIndex, GetElement(directionIndex))` visited by a loop
over the container, counting from `directionIndex`. -/
def indexed : List Vec3 → Nat → List (Nat × Vec3)
  | [], _ => []
  | g :: gs, directionIndex => (directionIndex, g) :: indexed gs (directionIndex + 1)

/-- The loop at lines 539-590 over the channels `channels`, in list order. -/
def idwiLoop (X : Ext) (dwi : VectorImage) (channels : List (Nat × Vec3)) (st : IdwiState) :
    IdwiState :=
  channels.foldl (fun st ch => idwiStep X dwi st ch.1 ch.2) st

/-- Lines 533-607 with the channels visited in the order `channels`: the image
handed to the IDWI writer; `none` when `idwiImage` is still null at line 599. -/
def idwiImageOver (X : Ext) (channels : List (Nat × Vec3)) (dwi : VectorImage) :
    Option ScalarImage :=
  let st := idwiLoop X dwi channels ⟨0, none⟩
  match st.idwiImage with
  | none => none
  | some acc => some ((acc.map (fun v => X.div v (st.numberNonB0Directions : ℚ))).map X.exp)

/-- Lines 533-607: the loop visits the container from index 0 on. -/
def idwiImage (X : Ext) (grads : List Vec3) (dwi : VectorImage) : Option ScalarImage :=
  idwiImageOver X (indexed grads 0) dwi

/-- The channels whose direction is not a baseline. -/
def nonBaselineChannels (channels : List (Nat × Vec3)) : List (Nat × Vec3) :=
  channels.filter (fun ch => !isBaseline ch.2)

/-- The sum of the logarithms of the channels `indices` of the signal vector `v`,
taken in list order with the addition of the image type: the logarithm of the
first channel, to which the logarithm of each further channel is added. -/
def logSum (X : Ext) (v : List ℚ) : List Nat → ℚ
  | [] => 0
  | i :: rest => rest.foldl (fun acc j => X.add (X.log (v.getD j 0)) acc) (X.log (v.getD i 0))

/-- The value the loop and the division of lines 533-607 produce at a voxel with
signal vector `v`, for the visiting order `channels`. -/
def channelMean (X : Ext) (channels : List (Nat × Vec3)) (v : List ℚ) : ℚ :=
  X.exp (X.div (logSum X v ((nonBaselineChannels channels).map Prod.fst))
    ((nonBaselineChannels channels).length : ℚ))

/-- The indices of a gradient table whose direction is not all-zero. -/
def nonBaselineIndices (grads : List Vec3) : List Nat :=
  (List.range grads.length).filter (fun i => !isBaseline (grads.getD i 0))

/-- The IDWI value in the words of the specification: the exponential of the sum
of `log(S_i)` over the non-baseline indices `i`, divided by their number; the
sum is taken in increasing order of the indices. -/
def geometricMean (X : Ext) (grads : List Vec3) (v : List ℚ) : ℚ :=
  X.exp (X.div (logSum X v (nonBaselineIndices grads)) ((nonBaselineIndices grads).length : ℚ))

/-- Lines 527-623; `none` when the block dereferences a null image. -/
def idwiStage (X : Ext) (W : World) (vm : VariablesMap) (grads : List Vec3)
    (dwi : VectorImage) : Option (List Event) :=
  if vm.count "idwi" ≠ 0 then
    match idwiImage X grads dwi with
    | none => none
    | some img =>
      let file := (vm.asString "idwi").getD ""
      some [.writeIDWI file img (W.writable file)]
  else some []

/-! ## Estimation and output (lines 625-725) -/

/-- The settings of `llsestimator` (lines 634-638). -/
def llsSettings (grads : List Vec3) (dwi : VectorImage) (b0 threshold : ℚ) : FilterSettings :=
  { gradients := grads, image := dwi, bValue := b0, threshold := threshold,
    step := none, sigma := none, initialTensor := none, numberOfIterations := none,
    numberOfThreads := none }

/-- The settings of the estimator of the branch taken at lines 642-699; `none`
in the `LinearEstimate` branch, which creates no further filter. -/
def branchSettings (vm : VariablesMap) (grads : List Vec3) (dwi : VectorImage)
    (b0 threshold step sigma : ℚ) (llstensors : TensorImage) : Option FilterSettings :=
  match vm.method with
  | .LinearEstimate => none
  | .NonlinearEstimate =>
    some { gradients := grads, image := dwi, bValue := b0, threshold := threshold,
           step := some step, sigma := none, initialTensor := none,
           numberOfIterations := none, numberOfThreads := some 1 }
  | .WeightedEstimate =>
    some { gradients := grads, image := dwi, bValue := b0, threshold := threshold,
           step := none, sigma := none, initialTensor := none,
           numberOfIterations := some vm.weightIterations, numberOfThreads := none }
  | .MaximumLikelihoodEstimate =>
    some { gradients := grads, image := dwi, bValue := b0, threshold := threshold,
           step := some step, sigma := some sigma, initialTensor := some llstensors,
           numberOfIterations := none, numberOfThreads := some 1 }

/-- Lines 634-699: the image `tensors` and the filters that ran. -/
def estimateTensors (X : Ext) (vm : VariablesMap) (grads : List Vec3) (dwi : VectorImage)
    (b0 threshold step sigma : ℚ) : TensorImage × List Event :=
  let lls := llsSettings grads dwi b0 threshold
  let tensors := X.estimator .LinearEstimate lls
  match branchSettings vm grads dwi b0 threshold step sigma tensors with
  | none => (tensors, [.estimate .LinearEstimate lls])
  | some s => (X.estimator vm.method s, [.estimate .LinearEstimate lls, .estimate vm.method s])

/-- Lines 705-724. -/
def writeTensors (W : World) (vm : VariablesMap) (tensors : TensorImage)
    (dict : MetaDataDictionary) (done : List Event) : Run :=
  let file := (vm.asString "tensor-output").getD ""
  if W.writable file then ⟨.EXIT_SUCCESS, done ++ [.writeTensor file tensors dict]⟩
  else ⟨.EXIT_FAILURE, done⟩

/-- Lines 455-725, entered with the masked volume `dwi`. -/
def processVolume (X : Ext) (W : World) (vm : VariablesMap) (vol : DWIVolume) (h : Header)
    (dwi : VectorImage) (step sigma : ℚ) (done : List Event) : Run :=
  let thr := computeThreshold X vm vol.image
  match thresholdMaskStage X W vm h.gradientContainer dwi thr.1 with
  | none => ⟨.crash, done ++ thr.2⟩
  | some e1 =>
    match idwiStage X W vm h.gradientContainer dwi with
    | none => ⟨.crash, done ++ thr.2 ++ e1⟩
    | some e2 =>
      let est := estimateTensors X vm h.gradientContainer dwi h.b0 thr.1 step sigma
      writeTensors W vm est.1 h.dict (done ++ thr.2 ++ e1 ++ e2 ++ est.2)

/-- Lines 241-453, entered with the volume the reader produced. -/
def processHeader (X : Ext) (W : World) (vm : VariablesMap) (vol : DWIVolume)
    (step sigma : ℚ) (done : List Event) : Run :=
  let h := readHeader X vol
  if h.readbvalue = false then ⟨.EXIT_FAILURE, done⟩
  else
    match brainMaskStage W vm vol.image with
    | none => ⟨.EXIT_FAILURE, done⟩
    | some m1 =>
      match badRegionMaskStage W vm m1.1 with
      | none => ⟨.EXIT_FAILURE, done ++ m1.2⟩
      | some m2 => processVolume X W vm vol h m2.1 step sigma (done ++ m1.2 ++ m2.2)

/-- The function `main`, from the parsed options on (lines 173-725). -/
def main (X : Ext) (W : World) (vm : VariablesMap) : Run :=
  if vm.count "help" ≠ 0 ∨ vm.count "dwi-image" = 0 ∨ vm.count "tensor-output" = 0 then
    if vm.count "help" ≠ 0 then ⟨.EXIT_SUCCESS, []⟩ else ⟨.EXIT_FAILURE, []⟩
  else
    match readStep vm with
    | none => ⟨.EXIT_FAILURE, []⟩
    | some step =>
      match readSigma vm with
      | none => ⟨.EXIT_FAILURE, []⟩
      | some sigma =>
        let file := (vm.asString "dwi-image").getD ""
        match W.readDWI file with
        | none => ⟨.EXIT_FAILURE, []⟩
        | some vol => processHeader X W vm vol step sigma [.readDWI file]

/-- The composition of the two masking blocks (lines 393-453): the volume `dwi`
at line 455, or `none` when one of the blocks returns `EXIT_FAILURE`. -/
def maskedVolume (W : World) (vm : VariablesMap) (raw : VectorImage) : Option VectorImage :=
  match brainMaskStage W vm raw with
  | none => none
  | some m1 =>
    match badRegionMaskStage W vm m1.1 with
    | none => none
    | some m2 => some m2.1

/-- Events of the input stages: reading the volume and masking it. -/
def Event.isInput : Event → Bool
  | .readDWI _ => true
  | .maskBrain _ => true
  | .maskBadRegion => true
  | _ => false

/-- Events of the side stages between masking and estimation: the Otsu
computation and the two optional image outputs. -/
def Event.isSide : Event → Bool
  | .otsu _ _ => true
  | .writeThresholdMask _ _ _ _ => true
  | .writeIDWI _ _ _ => true
  | _ => false

/-! ## Sample inputs -/

/-- A sample instance of the external routines: `atof` reads `"1000"`, gradient
strings are read from a small table, the scalar cast truncates, sums and
quotients are exact. -/
def sampleExt : Ext :=
  { atof := fun s => if s = "1000" then 1000 else 0
    parseGradient := fun s =>
      if s = "1 0 0" then ![1, 0, 0]
      else if s = "0 1 0" then ![0, 1, 0]
      else ![0, 0, 0]
    svdInverse := fun m => m.transpose
    defaultGradient := ![0, 0, 0]
    otsu := fun img => img.headD 0
    toScalar := fun x => (⌊x⌋ : ℤ)
    scalarMax := 65535
    insideValue := 255
    log := fun x => x
    exp := fun x => x
    add := fun a b => a + b
    div := fun a b => a / b
    estimator := fun k s =>
      match k with
      | .LinearEstimate => [[s.bValue, s.threshold, 0]]
      | .NonlinearEstimate => [[s.bValue, s.threshold, 1]]
      | .WeightedEstimate => [[s.bValue, s.threshold, 2]]
      | .MaximumLikelihoodEstimate => [[s.bValue, s.threshold, 3]] }

/-- A sample header: baseline at index 0, two sensitised directions. -/
def sampleDict : MetaDataDictionary :=
  [("DWMRI_b-value", .str "1000"),
   ("DWMRI_gradient_0000", .str "0 0 0"),
   ("DWMRI_gradient_0001", .str "1 0 0"),
   ("DWMRI_gradient_0002", .str "0 1 0"),
   ("modality", .str "DWMRI")]

/-- A sample volume of two voxels with three channels. -/
def sampleVolume : DWIVolume :=
  { image := [[1000, 606, 606], [10, 5, 5]], direction := 1, dict := sampleDict }

/-- A sample file system holding `vol` as `dwi.nrrd`, without mask files. -/
def sampleWorldOf (vol : DWIVolume) : World :=
  { readDWI := fun f => if f = "dwi.nrrd" then some vol else none
    readMask := fun _ => none
    writable := fun _ => true }

/-- A sample file system holding `sampleVolume` as `dwi.nrrd`. -/
def sampleWorld : World := sampleWorldOf sampleVolume

/-- A sample volume whose header has no b-value entry. -/
def sampleVolumeNoBValue : DWIVolume :=
  { image := [[1000, 606]], direction := 1,
    dict := [("DWMRI_gradient_0000", .str "0 0 0"), ("DWMRI_gradient_0001", .str "1 0 0")] }

/-- Sample options: `dtiestim dwi.nrrd out.nrrd -m m` with an optional sigma. -/
def sampleOptions (m : EstimationType) (sigma : Option ℚ) : VariablesMap :=
  { help := false, brainMask := none, badRegionMask := none, threshold := none, idwi := none,
    method := m, weightIterations := 1, step := some (1 / 100000000), sigma := sigma,
    verbose := false, dwiImage := some "dwi.nrrd", tensorOutput := some "out.nrrd" }

/-- A sample volume whose first channel is diffusion weighted and whose second
channel is the baseline. -/
def baselineSecondVolume : DWIVolume :=
  { image := [[606, 1000], [5, 10]], direction := 1,
    dict := [("DWMRI_b-value", .str "1000"),
             ("DWMRI_gradient_0000", .str "1 0 0"),
             ("DWMRI_gradient_0001", .str "0 0 0")] }

/-- A sample gradient table of two directions. -/
def sampleTable : List Vec3 := [![1, 0, 0], ![0, 1, 0]]

/-- A rotation by a quarter turn about the third axis. -/
def quarterTurn : Mat3 := !![0, -1, 0; 1, 0, 0; 0, 0, 1]

/-- The names of the options declared at lines 116-150, which are the only
variables `po::store` can put into `vm`. -/
def declaredOptions : List String :=
  ["help", "brain-mask", "bad-region-mask", "threshold", "idwi", "method",
   "weight-iterations", "step", "sigma", "verbose", "dwi-image", "tensor-output"]

/-- Result of `option_description::match` of the option parsing library. -/
inductive MatchResult where
  | no_match
  | full_match
  | approximate_match
  deriving DecidableEq, Repr

/-- The method `option_description::match(name, approx = true)` for a declared
long name: equal names match fully, a declared name that starts with the given
name matches approximately. -/
def matchOption (declared given : String) : MatchResult :=
  if declared = given then .full_match
  else if given.toList.isPrefixOf declared.toList then .approximate_match
  else .no_match

/-- Errors of the lookup of an option name. -/
inductive OptionError where
  | unknown_option
  | ambiguous_option
  deriving DecidableEq, Repr

/-- The method `options_description::find(name, approx = true)` on the options
of `main`: the option a long name `--name` of the command line denotes, or the
`po::error` that makes `main` return `EXIT_FAILURE` at line 170. -/
def findOption (given : String) : Except OptionError String :=
  match declaredOptions.filter (fun d => decide (matchOption d given = .full_match)) with
  | d :: _ => .ok d
  | [] =>
    match declaredOptions.filter
        (fun d => decide (matchOption d given = .approximate_match)) with
    | [] => .error .unknown_option
    | [d] => .ok d
    | _ :: _ :: _ => .error .ambiguous_option

/-- Recognises the events of the threshold-mask block. -/
def Event.isThresholdMask : Event → Bool
  | .writeThresholdMask _ _ _ _ => true
  | _ => false

/-- A sample file system holding `sampleVolume` as `dwi.nrrd` on which the file
`idwi.nrrd` cannot be written. -/
def idwiUnwritableWorld : World :=
  { readDWI := fun f => if f = "dwi.nrrd" then some sampleVolume else none
    readMask := fun _ => none
    writable := fun f => decide (f ≠ "idwi.nrrd") }

/-- Sample options: `dtiestim dwi.nrrd out.nrrd --idwi idwi.nrrd`. -/
def idwiOptions : VariablesMap :=
  { sampleOptions .LinearEstimate none with idwi := some "idwi.nrrd" }

/-- A sample file system holding `sampleVolume` as `dwi.nrrd` and, as `bad.nrrd`,
a mask on the same grid that excludes no voxel. -/
def maskWorld : World :=
  { readDWI := fun f => if f = "dwi.nrrd" then some sampleVolume else none
    readMask := fun f => if f = "bad.nrrd" then some [0, 0] else none
    writable := fun _ => true }

/-- Sample options: `dtiestim dwi.nrrd out.nrrd -B bad.nrrd`. -/
def badRegionOptions : VariablesMap :=
  { sampleOptions .LinearEstimate none with badRegionMask := some "bad.nrrd" }

/-- A sample instance in `double` arithmetic: sums and quotients are rounded to
the nearest `double`, and `log` and `exp` hold, at the arguments the samples use,
the correctly rounded values of the logarithm and of the exponential (the values
the C library returns there), written as exact fractions. -/
def roundedExt : Ext :=
  { sampleExt with
    log := fun x =>
      if x = 1 then 0
      else if x = 2 then 6243314768165359 / 9007199254740992
      else if x = 3 then 4947709893870347 / 4503599627370496
      else if x = 11 then 1349895032131027 / 562949953421312
      else 0
    exp := fun y =>
      if y = 0 then 1
      else if y = 4947709893870347 / 4503599627370496 then 6755399441055745 / 2251799813685248
      else if y = 6289509178333747 / 4503599627370496 then 568753970343401 / 140737488355328
      else if y = 1572377294583437 / 1125899906842624 then 4550031762747209 / 1125899906842624
      else 0
    add := fun a b => Binary64.round (a + b)
    div := fun a b => Binary64.round (a / b) }

/-- A sample volume of one channel whose header lists two directions, the
second one sensitised. -/
def shortVolume : DWIVolume :=
  { image := [[1000]], direction := 1,
    dict := [("DWMRI_b-value", .str "1000"),
             ("DWMRI_gradient_0000", .str "0 0 0"),
             ("DWMRI_gradient_0001", .str "1 0 0")] }

/-- A sample gradient table: a baseline and three sensitised directions. -/
def threeDirectionTable : List Vec3 := [![0, 0, 0], ![1, 0, 0], ![0, 1, 0], ![0, 0, 1]]

end DTIEstim

/-! ## scalartransform.cxx: interpolation type -/

namespace ScalarTransform

/-- The `InterpolationType` enumeration.  It is declared in a header outside
scalartransform.cxx, which names its enumerators `NearestNeighbor`, `Linear` and
`Cubic`; `unnamed` stands for any other value of the type. -/
inductive InterpolationType where
  | NearestNeighbor
  | Linear
  | Cubic
  | unnamed (value : Nat)
  deriving DecidableEq, Repr

/-- The message of the `validation_error` thrown by `validate`. -/
def interpolationTypeMessage : String :=
  "Interpolation type invalid.  Only \"nearestneighbor\", \"linear\", and \"cubic\" allowed."

/-- The string comparison chain of `validate` (lines 62-77). -/
def validateString (s : String) : Except DTIEstim.ValidateError InterpolationType :=
  if s = "nearestneighbor" then .ok .NearestNeighbor
  else if s = "linear" then .ok .Linear
  else if s = "cubic" then .ok .Cubic
  else .error (.validation_error interpolationTypeMessage)

/-- The function `validate(boost::any& v, values, InterpolationType*, int)` of
scalartransform.cxx (lines 48-78). -/
def validate (v : Option InterpolationType) (values : List String) :
    Except DTIEstim.ValidateError InterpolationType :=
  match v with
  | some _ => .error .multiple_occurrences
  | none =>
    match values with
    | [] => .error .at_least_one_value_required
    | [s] => validateString s
    | _ :: _ :: _ => .error .multiple_values_not_allowed

/-- The interpolation functions `createInterpolater` can create. -/
inductive Interpolator where
  | NearestNeighborInterpolateImageFunction
  | LinearInterpolateImageFunction
  | BSplineInterpolateImageFunction
  deriving DecidableEq, Repr

/-- The function `createInterpolater` (lines 82-96); the error is the
`itk::ExceptionObject` of the `default` label. -/
def createInterpolater (interp : InterpolationType) : Except String Interpolator :=
  match interp with
  | .NearestNeighbor => .ok .NearestNeighborInterpolateImageFunction
  | .Linear => .ok .LinearInterpolateImageFunction
  | .Cubic => .ok .BSplineInterpolateImageFunction
  | .unnamed _ => .error "Invalid interpolation type"

end ScalarTransform

/-! ## fiberstats.cxx -/

namespace FiberStats

/-- A point of a fiber (`DTIPointType`): its position and its named fields, in
the order of `GetFields()`.  The type `D` carries the values of the floating
point types `float` and `double`, a `float` being carried by the `double` it
converts to. -/
structure DTIPoint (D : Type) where
  position : Fin 3 → ℚ
  fields : List (String × D)

/-- The point list of one fiber (`DTIPointListType`). -/
abbrev Fiber (D : Type) := List (DTIPoint D)

/-- The type `SampleMap` (`std::map<std::string, MeasureSample>`), as the list of
its entries in key order. -/
abbrev SampleMap (D : Type) := List (String × List D)

/-- The map `bundlestats` after lines 100-103. -/
def initialStats {D : Type} : SampleMap D := [("fa", []), ("fro", []), ("md", [])]

/-- The method `bundlestats.count(name)`. -/
def count {D : Type} (m : SampleMap D) (name : String) : Nat :=
  if m.any (fun e => e.1 == name) then 1 else 0

/-- The statement `bundlestats[name].push_back(x)` for a key of the map. -/
def pushBack {D : Type} (m : SampleMap D) (name : String) (x : D) : SampleMap D :=
  m.map (fun e => if e.1 = name then (e.1, e.2 ++ [x]) else e)

/-- Body of the loop over the fields of a point (lines 133-136). -/
def fieldStep {D : Type} (m : SampleMap D) (fl : String × D) : SampleMap D :=
  if count m fl.1 ≠ 0 then pushBack m fl.1 fl.2 else m

/-- The loop over the fields of a point (lines 128-137). -/
def pointStep {D : Type} (m : SampleMap D) (p : DTIPoint D) : SampleMap D :=
  p.fields.foldl fieldStep m

/-- The loop over the points of a fiber (lines 115-139). -/
def fiberStep {D : Type} (m : SampleMap D) (fiber : Fiber D) : SampleMap D :=
  fiber.foldl pointStep m

/-- The loop over the fibers (lines 108-140): the map `bundlestats` at line 143. -/
def collect {D : Type} (fibers : List (Fiber D)) : SampleMap D :=
  fibers.foldl fiberStep initialStats

/-- The samples stored in the map under `name` (empty when it is not a key). -/
def samples {D : Type} (m : SampleMap D) (name : String) : List D :=
  match m with
  | [] => []
  | (k, xs) :: rest => if k = name then xs else samples rest name

/-- Number of values of `size_t`. -/
def SIZE_MOD : Nat := 18446744073709551616

/-- The arithmetic of the type `double` as lines 143-162 use it. -/
structure Arith (D : Type) where
  /-- The literal `0.0`. -/
  zero : D
  /-- The sum of two `double`s. -/
  add : D → D → D
  /-- The difference of two `double`s. -/
  sub : D → D → D
  /-- The product of two `double`s. -/
  mul : D → D → D
  /-- The quotient of two `double`s. -/
  div : D → D → D
  /-- The conversion of a `size_t` to `double`. -/
  ofNat : Nat → D

/-- Line 152: `std::accumulate(begin, end, 0.0) / size()`, the sum being taken
from `0.0` on in the order of the list. -/
def mean {D : Type} (A : Arith D) (xs : List D) : D :=
  A.div (xs.foldl A.add A.zero) (A.ofNat xs.length)

/-- Lines 154-161: the loop `var += (minusMean * minusMean) / (size() - 1)`, the
subtraction `size() - 1` being in `size_t`. -/
def variance {D : Type} (A : Arith D) (xs : List D) : D :=
  xs.foldl
    (fun var x =>
      A.add var (A.div (A.mul (A.sub x (mean A xs)) (A.sub x (mean A xs)))
        (A.ofNat ((xs.length + SIZE_MOD - 1) % SIZE_MOD))))
    A.zero

/-- The function `vnl_math_rnd_halfinttoeven`. -/
def rnd_halfinttoeven (x : ℚ) : Int :=
  if x - (⌊x⌋ : ℤ) < 1 / 2 then ⌊x⌋
  else if 1 / 2 < x - (⌊x⌋ : ℤ) then ⌊x⌋ + 1
  else if ⌊x⌋ % 2 = 0 then ⌊x⌋ else ⌊x⌋ + 1

/-- The index inserted into `seenvoxels` for a point (lines 119-126). -/
def voxelIndex {D : Type} (p : DTIPoint D) : Int × Int × Int :=
  (rnd_halfinttoeven (p.position 0), rnd_halfinttoeven (p.position 1),
   rnd_halfinttoeven (p.position 2))

/-- The set `seenvoxels` at line 143, as a list without repetition. -/
def seenvoxels {D : Type} (fibers : List (Fiber D)) : List (Int × Int × Int) :=
  (fibers.flatten.map voxelIndex).dedup

/-- A fiber group as `readFiberFile` returns it: the spacing and the fibers. -/
structure Group (D : Type) where
  spacing : Fin 3 → D
  children : List (Fiber D)

/-- What a run of fiberstats hands to the output stream: the volume and, per
measure in key order, the mean and the standard deviation. -/
structure Output (D : Type) where
  volume : D
  stats : List (String × D × D)

/-- Lines 143-163, with `std::sqrt` as a parameter. -/
def statistics {D : Type} (A : Arith D) (sqrt : D → D) (group : Group D) : Output D :=
  { volume := A.mul (A.ofNat (seenvoxels group.children).length)
      (A.mul (A.mul (group.spacing 0) (group.spacing 1)) (group.spacing 2))
    stats := (collect group.children).map
      (fun e => (e.1, mean A e.2, sqrt (variance A e.2))) }

/-- The function `main` of fiberstats.cxx from the parsed arguments on (lines
72-167): the exit status (`true` for `EXIT_SUCCESS`) and what was printed. -/
def main {D : Type} (A : Arith D) (sqrt : D → D) (readFiberFile : String → Group D)
    (help : Bool) (fiberFile : String) : Bool × Option (Output D) :=
  if help ∨ fiberFile = "" then
    if help then (true, none) else (false, none)
  else (true, some (statistics A sqrt (readFiberFile fiberFile)))

/-- The values of the fields named `name` over all points of all fibers, in the
order of the fibers, of their points and of the fields of a point. -/
def fieldValues {D : Type} (fibers : List (Fiber D)) (name : String) : List D :=
  fibers.flatten.flatMap (fun p => (p.fields.filter (fun fl => fl.1 = name)).map Prod.snd)

/-- Exact arithmetic on the rationals. -/
def exactArith : Arith ℚ :=
  { zero := 0
    add := fun a b => a + b
    sub := fun a b => a - b
    mul := fun a b => a * b
    div := fun a b => a / b
    ofNat := fun n => (n : ℚ) }

/-- The result of an operation on finite `double`s whose exact value is `x`. -/
def rounded (x : ℚ) : Option ℚ := some (Binary64.round x)

/-- A sample arithmetic, that of `double` on finite values: every operation
rounds its exact result to the nearest `double`.  The value `none` stands for a
result that is not a finite number (a quotient by zero); it is not followed
further, every operation on it giving `none`. -/
def roundedArith : Arith (Option ℚ) :=
  { zero := some 0
    add := fun a b =>
      match a, b with
      | some x, some y => rounded (x + y)
      | _, _ => none
    sub := fun a b =>
      match a, b with
      | some x, some y => rounded (x - y)
      | _, _ => none
    mul := fun a b =>
      match a, b with
      | some x, some y => rounded (x * y)
      | _, _ => none
    div := fun a b =>
      match a, b with
      | some x, some y => if y = 0 then none else rounded (x / y)
      | _, _ => none
    ofNat := fun n => rounded (n : ℚ) }

/-- A sample fiber group: two fibers, fields `fa`, `md` and an unrelated one. -/
def sampleGroup : Group ℚ :=
  { spacing := fun _ => 1
    children :=
      [[{ position := ![0, 0, 0], fields := [("fa", 1), ("md", 10), ("other", 7)] },
        { position := ![1, 0, 0], fields := [("fa", 3), ("md", 20)] }],
       [{ position := ![2, 0, 0], fields := [("fa", 5), ("md", 60)] }]] }

/-- A sample point whose `md` value is the `float` `2^100`. -/
def largePoint : DTIPoint (Option ℚ) :=
  { position := ![0, 0, 0], fields := [("md", some (2 ^ 100))] }

/-- A sample point whose `md` value is `1`. -/
def unitPoint : DTIPoint (Option ℚ) :=
  { position := ![1, 0, 0], fields := [("md", some 1)] }

/-- A sample point whose `md` value is the `float` `-2^100`. -/
def negativePoint : DTIPoint (Option ℚ) :=
  { position := ![2, 0, 0], fields := [("md", some (-(2 ^ 100)))] }

/-- A sample fiber group: one fiber through the three sample points. -/
def cancellingGroup : Group (Option ℚ) :=
  { spacing := fun _ => some 1, children := [[largePoint, unitPoint, negativePoint]] }

/-- The same fiber as in `cancellingGroup` with its last two points exchanged. -/
def reorderedGroup : Group (Option ℚ) :=
  { spacing := fun _ => some 1, children := [[largePoint, negativePoint, unitPoint]] }

end FiberStats

namespace DTIEstim

/-! ## Theorems -/

/-! ### Structure of a run -/

theorem brainMaskStage_isInput {W : World} {vm : VariablesMap} {dwi : VectorImage}
    {m : VectorImage × List Event} (h : brainMaskStage W vm dwi = some m) :
    ∀ e ∈ m.2, e.isInput = true := by
  unfold brainMaskStage at h
  split_ifs at h
  · split at h
    · simp at h
    · split at h
      · simp at h
      · simp only [Option.some.injEq] at h
        subst h
        simp [Event.isInput]
  · simp only [Option.some.injEq] at h
    subst h
    simp

theorem badRegionMaskStage_isInput {W : World} {vm : VariablesMap} {dwi : VectorImage}
    {m : VectorImage × List Event} (h : badRegionMaskStage W vm dwi = some m) :
    ∀ e ∈ m.2, e.isInput = true := by
  unfold badRegionMaskStage at h
  split_ifs at h
  · split at h
    · simp at h
    · split at h
      · simp at h
      · simp only [Option.some.injEq] at h
        subst h
        simp [Event.isInput]
  · simp only [Option.some.injEq] at h
    subst h
    simp

theorem processHeader_cases (X : Ext) (W : World) (vm : VariablesMap) (vol : DWIVolume)
    (step sigma : ℚ) (done : List Event) (hdone : ∀ e ∈ done, e.isInput = true) :
    ((processHeader X W vm vol step sigma done).exit = .EXIT_FAILURE ∧
      (∀ e ∈ (processHeader X W vm vol step sigma done).events, e.isInput = true) ∧
      ((readHeader X vol).readbvalue = false →
        processHeader X W vm vol step sigma done = ⟨.EXIT_FAILURE, done⟩)) ∨
    ∃ dwi done2,
      (readHeader X vol).readbvalue = true ∧
      maskedVolume W vm vol.image = some dwi ∧
      (∀ e ∈ done2, e.isInput = true) ∧
      processHeader X W vm vol step sigma done =
        processVolume X W vm vol (readHeader X vol) dwi step sigma done2 := by
  unfold processHeader
  dsimp only
  generalize readHeader X vol = H
  cases hb : H.readbvalue with
  | false =>
    left
    rw [if_pos rfl]
    exact ⟨rfl, hdone, fun _ => rfl⟩
  | true =>
    rw [if_neg (by decide)]
    cases h1 : brainMaskStage W vm vol.image with
    | none =>
      left
      exact ⟨rfl, hdone, fun h => by cases h⟩
    | some m1 =>
      cases h2 : badRegionMaskStage W vm m1.1 with
      | none =>
        left
        refine ⟨by simp only [h2], ?_, fun h => by cases h⟩
        intro e he
        simp only [h2, List.mem_append] at he
        rcases he with he | he
        · exact hdone e he
        · exact brainMaskStage_isInput h1 e he
      | some m2 =>
        right
        refine ⟨m2.1, done ++ m1.2 ++ m2.2, rfl, ?_, ?_, ?_⟩
        · simp [maskedVolume, h1, h2]
        · intro e he
          simp only [List.mem_append] at he
          rcases he with (he | he) | he
          · exact hdone e he
          · exact brainMaskStage_isInput h1 e he
          · exact badRegionMaskStage_isInput h2 e he
        · simp only [h2]

/-- Either `main` stops in its option or input stages, having done nothing but
reading and masking, or it enters the processing stage with the values computed
from the header and the masked volume. -/
theorem main_cases (X : Ext) (W : World) (vm : VariablesMap) :
    ((main X W vm).exit ≠ .crash ∧ ∀ e ∈ (main X W vm).events, e.isInput = true) ∨
    ∃ vol step sigma dwi done,
      W.readDWI ((vm.asString "dwi-image").getD "") = some vol ∧
      readStep vm = some step ∧ readSigma vm = some sigma ∧
      (readHeader X vol).readbvalue = true ∧
      maskedVolume W vm vol.image = some dwi ∧
      (∀ e ∈ done, e.isInput = true) ∧
      main X W vm = processVolume X W vm vol (readHeader X vol) dwi step sigma done := by
  unfold main
  split_ifs with h0 h1
  · left; simp
  · left; simp
  · cases hs : readStep vm with
    | none => left; simp
    | some step =>
      cases hg : readSigma vm with
      | none => left; simp
      | some sigma =>
        cases hr : W.readDWI ((vm.asString "dwi-image").getD "") with
        | none => left; simp [hr]
        | some vol =>
          simp only [hr]
          have hd : ∀ e ∈ [Event.readDWI ((vm.asString "dwi-image").getD "")],
              e.isInput = true := by
            intro e he
            simp only [List.mem_singleton] at he
            subst he
            rfl
          rcases processHeader_cases X W vm vol step sigma _ hd with h | h
          · left
            refine ⟨?_, h.2.1⟩
            rw [h.1]
            decide
          · obtain ⟨dwi, done2, hb, hm, hd2, heq⟩ := h
            right
            exact ⟨vol, step, sigma, dwi, done2, rfl, rfl, rfl, hb, hm, hd2, heq⟩

theorem computeThreshold_isSide (X : Ext) (vm : VariablesMap) (raw : VectorImage) :
    ∀ e ∈ (computeThreshold X vm raw).2, e.isSide = true := by
  unfold computeThreshold
  split_ifs <;> simp [Event.isSide]

theorem thresholdMaskStage_isSide {X : Ext} {W : World} {vm : VariablesMap} {grads : List Vec3}
    {dwi : VectorImage} {thr : ℚ} {ev : List Event}
    (h : thresholdMaskStage X W vm grads dwi thr = some ev) : ∀ e ∈ ev, e.isSide = true := by
  unfold thresholdMaskStage at h
  dsimp only at h
  split_ifs at h
  · split at h
    · simp at h
    · simp only [Option.some.injEq] at h
      subst h
      simp [Event.isSide]
  · simp only [Option.some.injEq] at h
    subst h
    simp

theorem idwiStage_isSide {X : Ext} {W : World} {vm : VariablesMap} {grads : List Vec3}
    {dwi : VectorImage} {ev : List Event}
    (h : idwiStage X W vm grads dwi = some ev) : ∀ e ∈ ev, e.isSide = true := by
  unfold idwiStage at h
  split_ifs at h
  · split at h
    · simp at h
    · simp only [Option.some.injEq] at h
      subst h
      simp [Event.isSide]
  · simp only [Option.some.injEq] at h
    subst h
    simp

/-- The events of the processing stage: input and side events, then the events
of the estimation, then the tensor output when it is written. -/
theorem processVolume_events (X : Ext) (W : World) (vm : VariablesMap) (vol : DWIVolume)
    (h : Header) (dwi : VectorImage) (step sigma : ℚ) (done : List Event)
    (hdone : ∀ e ∈ done, e.isInput = true) :
    ∃ pre : List Event, (∀ e ∈ pre, e.isInput = true ∨ e.isSide = true) ∧
      ((processVolume X W vm vol h dwi step sigma done).events = pre ∨
       ((processVolume X W vm vol h dwi step sigma done).events =
          pre ++ (estimateTensors X vm h.gradientContainer dwi h.b0
            (computeThreshold X vm vol.image).1 step sigma).2 ∧
        (processVolume X W vm vol h dwi step sigma done).exit = .EXIT_FAILURE) ∨
       ((processVolume X W vm vol h dwi step sigma done).events =
          pre ++ (estimateTensors X vm h.gradientContainer dwi h.b0
            (computeThreshold X vm vol.image).1 step sigma).2 ++
          [.writeTensor ((vm.asString "tensor-output").getD "")
            (estimateTensors X vm h.gradientContainer dwi h.b0
              (computeThreshold X vm vol.image).1 step sigma).1 h.dict] ∧
        (processVolume X W vm vol h dwi step sigma done).exit = .EXIT_SUCCESS)) := by
  have hthr := computeThreshold_isSide X vm vol.image
  unfold processVolume
  dsimp only
  cases h1 : thresholdMaskStage X W vm h.gradientContainer dwi
      (computeThreshold X vm vol.image).1 with
  | none =>
    refine ⟨done ++ (computeThreshold X vm vol.image).2, ?_, Or.inl rfl⟩
    intro e he
    simp only [List.mem_append] at he
    rcases he with he | he
    · exact Or.inl (hdone e he)
    · exact Or.inr (hthr e he)
  | some e1 =>
    have he1 := thresholdMaskStage_isSide h1
    cases h2 : idwiStage X W vm h.gradientContainer dwi with
    | none =>
      refine ⟨done ++ (computeThreshold X vm vol.image).2 ++ e1, ?_, Or.inl rfl⟩
      intro e he
      simp only [List.mem_append] at he
      rcases he with (he | he) | he
      · exact Or.inl (hdone e he)
      · exact Or.inr (hthr e he)
      · exact Or.inr (he1 e he)
    | some e2 =>
      have he2 := idwiStage_isSide h2
      refine ⟨done ++ (computeThreshold X vm vol.image).2 ++ e1 ++ e2, ?_, Or.inr ?_⟩
      · intro e he
        simp only [List.mem_append] at he
        rcases he with ((he | he) | he) | he
        · exact Or.inl (hdone e he)
        · exact Or.inr (hthr e he)
        · exact Or.inr (he1 e he)
        · exact Or.inr (he2 e he)
      · unfold writeTensors
        dsimp only
        split_ifs
        · exact Or.inr ⟨rfl, rfl⟩
        · exact Or.inl ⟨rfl, rfl⟩

/-- The events of the estimation are estimation events. -/
theorem estimateTensors_events (X : Ext) (vm : VariablesMap) (grads : List Vec3)
    (dwi : VectorImage) (b0 thr step sigma : ℚ) :
    ∀ e ∈ (estimateTensors X vm grads dwi b0 thr step sigma).2, ∃ k s, e = .estimate k s := by
  unfold estimateTensors
  dsimp only
  split <;> simp

/-- An estimation filter only runs in the processing stage, on the values `main`
computed from the header, the masks and the options. -/
theorem estimate_mem_main {X : Ext} {W : World} {vm : VariablesMap} {k : EstimationType}
    {s : FilterSettings} (hm : Event.estimate k s ∈ (main X W vm).events) :
    ∃ vol step sigma dwi,
      W.readDWI ((vm.asString "dwi-image").getD "") = some vol ∧
      readStep vm = some step ∧ readSigma vm = some sigma ∧
      (readHeader X vol).readbvalue = true ∧
      maskedVolume W vm vol.image = some dwi ∧
      Event.estimate k s ∈ (estimateTensors X vm (readHeader X vol).gradientContainer dwi
        (readHeader X vol).b0 (computeThreshold X vm vol.image).1 step sigma).2 := by
  rcases main_cases X W vm with h | ⟨vol, step, sigma, dwi, done, hr, hs, hg, hb, hmask, hd, heq⟩
  · have := h.2 _ hm
    simp [Event.isInput] at this
  · refine ⟨vol, step, sigma, dwi, hr, hs, hg, hb, hmask, ?_⟩
    rw [heq] at hm
    obtain ⟨pre, hpre, hev⟩ := processVolume_events X W vm vol (readHeader X vol) dwi step sigma
      done hd
    have hnot : Event.estimate k s ∉ pre := by
      intro hin
      have := hpre _ hin
      simp [Event.isInput, Event.isSide] at this
    rcases hev with hev | ⟨hev, _⟩ | ⟨hev, _⟩
    · rw [hev] at hm
      exact absurd hm hnot
    · rw [hev, List.mem_append] at hm
      rcases hm with hm | hm
      · exact absurd hm hnot
      · exact hm
    · rw [hev, List.mem_append, List.mem_append] at hm
      rcases hm with (hm | hm) | hm
      · exact absurd hm hnot
      · exact hm
      · simp at hm

/-- A tensor volume is only written at the end of the processing stage: it is the
image `tensors` of the estimation, with the dictionary of the header, and the run
succeeds. -/
theorem writeTensor_mem_main {X : Ext} {W : World} {vm : VariablesMap} {f : String}
    {t : TensorImage} {d : MetaDataDictionary}
    (hm : Event.writeTensor f t d ∈ (main X W vm).events) :
    ∃ vol step sigma dwi,
      W.readDWI ((vm.asString "dwi-image").getD "") = some vol ∧
      readStep vm = some step ∧ readSigma vm = some sigma ∧
      (readHeader X vol).readbvalue = true ∧
      maskedVolume W vm vol.image = some dwi ∧
      t = (estimateTensors X vm (readHeader X vol).gradientContainer dwi
        (readHeader X vol).b0 (computeThreshold X vm vol.image).1 step sigma).1 ∧
      d = (readHeader X vol).dict ∧
      (main X W vm).exit = .EXIT_SUCCESS ∧
      ∀ e ∈ (estimateTensors X vm (readHeader X vol).gradientContainer dwi
        (readHeader X vol).b0 (computeThreshold X vm vol.image).1 step sigma).2,
        e ∈ (main X W vm).events := by
  rcases main_cases X W vm with h | ⟨vol, step, sigma, dwi, done, hr, hs, hg, hb, hmask, hd, heq⟩
  · have := h.2 _ hm
    simp [Event.isInput] at this
  · refine ⟨vol, step, sigma, dwi, hr, hs, hg, hb, hmask, ?_⟩
    rw [heq] at hm ⊢
    obtain ⟨pre, hpre, hev⟩ := processVolume_events X W vm vol (readHeader X vol) dwi step sigma
      done hd
    have hnot : Event.writeTensor f t d ∉ pre := by
      intro hin
      have := hpre _ hin
      simp [Event.isInput, Event.isSide] at this
    have hnot2 : Event.writeTensor f t d ∉ (estimateTensors X vm
        (readHeader X vol).gradientContainer dwi (readHeader X vol).b0
        (computeThreshold X vm vol.image).1 step sigma).2 := by
      intro hin
      obtain ⟨k, s, hks⟩ := estimateTensors_events X vm _ _ _ _ _ _ _ hin
      cases hks
    rcases hev with hev | ⟨hev, _⟩ | ⟨hev, hex⟩
    · rw [hev] at hm
      exact absurd hm hnot
    · rw [hev, List.mem_append] at hm
      rcases hm with hm | hm
      · exact absurd hm hnot
      · exact absurd hm hnot2
    · rw [hev, List.mem_append, List.mem_append] at hm
      rcases hm with (hm | hm) | hm
      · exact absurd hm hnot
      · exact absurd hm hnot2
      · simp only [List.mem_singleton, Event.writeTensor.injEq] at hm
        refine ⟨hm.2.1, hm.2.2, hex, ?_⟩
        intro e he
        rw [hev]
        simp only [List.mem_append]
        exact Or.inl (Or.inr he)

/-- The settings of every filter that runs: those of `llsestimator`, or those of
the branch selected by the method. -/
theorem estimate_mem_estimateTensors {X : Ext} {vm : VariablesMap} {grads : List Vec3}
    {dwi : VectorImage} {b0 thr step sigma : ℚ} {k : EstimationType} {s : FilterSettings}
    (h : Event.estimate k s ∈ (estimateTensors X vm grads dwi b0 thr step sigma).2) :
    (k = .LinearEstimate ∧ s = llsSettings grads dwi b0 thr) ∨
    (k = vm.method ∧ branchSettings vm grads dwi b0 thr step sigma
      (X.estimator .LinearEstimate (llsSettings grads dwi b0 thr)) = some s) := by
  unfold estimateTensors at h
  dsimp only at h
  split at h
  · simp only [List.mem_singleton, Event.estimate.injEq] at h
    exact Or.inl h
  · rename_i s2 hs2
    simp only [List.mem_cons, Event.estimate.injEq, List.mem_singleton, List.not_mem_nil,
      or_false] at h
    rcases h with h | h
    · exact Or.inl h
    · right
      rw [h.1, h.2]
      exact ⟨rfl, hs2⟩

/-- Every filter that runs is given the same gradient table, image, b-value and
threshold. -/
theorem estimate_common_settings {X : Ext} {vm : VariablesMap} {grads : List Vec3}
    {dwi : VectorImage} {b0 thr step sigma : ℚ} {k : EstimationType} {s : FilterSettings}
    (h : Event.estimate k s ∈ (estimateTensors X vm grads dwi b0 thr step sigma).2) :
    s.gradients = grads ∧ s.image = dwi ∧ s.bValue = b0 ∧ s.threshold = thr := by
  rcases estimate_mem_estimateTensors h with ⟨_, hs⟩ | ⟨_, hs⟩
  · subst hs
    exact ⟨rfl, rfl, rfl, rfl⟩
  · unfold branchSettings at hs
    split at hs
    · cases hs
    all_goals
      simp only [Option.some.injEq] at hs
      subst hs
      exact ⟨rfl, rfl, rfl, rfl⟩

/-! ### Dictionary lemmas -/

theorem GetKeys_replaceEntry (dict : MetaDataDictionary) (key : String) (v : MetaValue) :
    GetKeys (replaceEntry dict key v) = GetKeys dict := by
  unfold GetKeys replaceEntry
  rw [List.map_map]
  apply List.map_congr_left
  intro e _
  simp only [Function.comp_apply]
  split_ifs <;> rfl

theorem findEntry_replaceEntry_ne (dict : MetaDataDictionary) (key k : String) (v : MetaValue)
    (h : k ≠ key) : findEntry (replaceEntry dict key v) k = findEntry dict k := by
  induction dict with
  | nil => rfl
  | cons e rest ih =>
    obtain ⟨k0, w⟩ := e
    show findEntry ((if k0 = key then (k0, v) else (k0, w)) :: replaceEntry rest key v) k =
      findEntry ((k0, w) :: rest) k
    by_cases h0 : k0 = key
    · rw [if_pos h0]
      have hk : ¬ k0 = k := fun hk => h (hk ▸ h0)
      simp only [findEntry, if_neg hk]
      exact ih
    · rw [if_neg h0]
      by_cases h1 : k0 = k
      · simp only [findEntry, if_pos h1]
      · simp only [findEntry, if_neg h1]
        exact ih

theorem EncapsulateMetaData_of_HasKey {dict : MetaDataDictionary} {key : String}
    (v : MetaValue) (h : HasKey dict key = true) :
    EncapsulateMetaData dict key v = replaceEntry dict key v := by
  unfold EncapsulateMetaData
  rw [if_pos h]

/-- The rewriting of lines 272-323 keeps the keys. -/
theorem GetKeys_rewriteDict (vol : DWIVolume) : GetKeys (rewriteDict vol) = GetKeys vol.dict := by
  unfold rewriteDict
  dsimp only
  by_cases h1 : HasKey vol.dict NRRD_MEASUREMENT_KEY = true
  · rw [if_pos h1, EncapsulateMetaData_of_HasKey _ h1]
    split_ifs with h2
    · rw [EncapsulateMetaData_of_HasKey _ h2, GetKeys_replaceEntry, GetKeys_replaceEntry]
    · rw [GetKeys_replaceEntry]
  · rw [if_neg h1]
    split_ifs with h2
    · rw [EncapsulateMetaData_of_HasKey _ h2, GetKeys_replaceEntry]
    · rfl

/-- The rewriting of lines 272-323 keeps every entry other than the measurement
frame and the modality. -/
theorem findEntry_rewriteDict (vol : DWIVolume) (k : String)
    (h1 : k ≠ NRRD_MEASUREMENT_KEY) (h2 : k ≠ "modality") :
    findEntry (rewriteDict vol) k = findEntry vol.dict k := by
  unfold rewriteDict
  dsimp only
  by_cases hf : HasKey vol.dict NRRD_MEASUREMENT_KEY = true
  · rw [if_pos hf, EncapsulateMetaData_of_HasKey _ hf]
    split_ifs with hm
    · rw [EncapsulateMetaData_of_HasKey _ hm, findEntry_replaceEntry_ne _ _ _ _ h2,
        findEntry_replaceEntry_ne _ _ _ _ h1]
    · rw [findEntry_replaceEntry_ne _ _ _ _ h1]
  · rw [if_neg hf]
    split_ifs with hm
    · rw [EncapsulateMetaData_of_HasKey _ hm, findEntry_replaceEntry_ne _ _ _ _ h2]
    · rfl

theorem ne_of_contains {k c pat : String} (h : contains k pat = true)
    (hc : contains c pat = false) : k ≠ c := by
  intro hk
  subst hk
  rw [h] at hc
  cases hc

/-- The string stored under a key other than the measurement frame and the
modality is the one of the input dictionary. -/
theorem ExposeString_rewriteDict (vol : DWIVolume) (k : String)
    (h1 : k ≠ NRRD_MEASUREMENT_KEY) (h2 : k ≠ "modality") :
    ExposeString (rewriteDict vol) k = ExposeString vol.dict k := by
  unfold ExposeString
  rw [findEntry_rewriteDict vol k h1 h2]

/-! ### The loop over the keys -/

theorem foldl_keyStep_no_bvalue (X : Ext) (dict : MetaDataDictionary) (T : Mat3)
    (keys : List String) (st : KeyState)
    (h : ∀ k ∈ keys, contains k "DWMRI_b-value" = false) :
    (keys.foldl (keyStep X dict T) st).readbvalue = st.readbvalue ∧
    (keys.foldl (keyStep X dict T) st).b0 = st.b0 := by
  induction keys generalizing st with
  | nil => exact ⟨rfl, rfl⟩
  | cons k ks ih =>
    have hk : contains k "DWMRI_b-value" = false := h k (List.mem_cons_self _ _)
    have hks : ∀ x ∈ ks, contains x "DWMRI_b-value" = false :=
      fun x hx => h x (List.mem_cons_of_mem _ hx)
    rw [List.foldl_cons]
    obtain ⟨h1, h2⟩ := ih (keyStep X dict T st k) hks
    rw [h1, h2]
    unfold keyStep
    rw [hk]
    simp only [Bool.false_eq_true, if_false]
    split_ifs <;> exact ⟨rfl, rfl⟩

/-- The last key among those a predicate holds of. -/
theorem exists_last_of_exists {α : Type} (p : α → Bool) (l : List α)
    (h : ∃ x ∈ l, p x = true) :
    ∃ pre x post, l = pre ++ x :: post ∧ p x = true ∧ ∀ y ∈ post, p y = false := by
  induction l with
  | nil =>
    obtain ⟨x, hx, _⟩ := h
    cases hx
  | cons a l ih =>
    by_cases hl : ∃ x ∈ l, p x = true
    · obtain ⟨pre, x, post, heq, hx, hpost⟩ := ih hl
      exact ⟨a :: pre, x, post, by rw [heq]; rfl, hx, hpost⟩
    · have hnone : ∀ y ∈ l, p y = false := by
        intro y hy
        cases hp : p y
        · rfl
        · exact absurd ⟨y, hy, hp⟩ hl
      obtain ⟨x, hx, hpx⟩ := h
      rcases List.mem_cons.mp hx with hxa | hxl
      · subst hxa
        exact ⟨[], x, l, rfl, hpx, hnone⟩
      · exact absurd ⟨x, hxl, hpx⟩ hl

/-- After the loop, `b0` is the number read from the last key holding
`"DWMRI_b-value"`. -/
theorem parseKeys_bvalue (X : Ext) (dict : MetaDataDictionary) (T : Mat3)
    (pre post : List String) (key : String)
    (hkey : contains key "DWMRI_b-value" = true)
    (hpost : ∀ k ∈ post, contains k "DWMRI_b-value" = false) :
    (parseKeys X dict T (pre ++ key :: post)).readbvalue = true ∧
    (parseKeys X dict T (pre ++ key :: post)).b0 = X.atof (ExposeString dict key) := by
  unfold parseKeys
  rw [List.foldl_append, List.foldl_cons]
  obtain ⟨h1, h2⟩ := foldl_keyStep_no_bvalue X dict T post
    (keyStep X dict T (List.foldl (keyStep X dict T) ⟨false, 0, []⟩ pre) key) hpost
  rw [h1, h2]
  unfold keyStep
  rw [if_pos hkey]
  exact ⟨rfl, rfl⟩

theorem parseKeys_no_bvalue (X : Ext) (dict : MetaDataDictionary) (T : Mat3)
    (keys : List String) (h : ∀ k ∈ keys, contains k "DWMRI_b-value" = false) :
    (parseKeys X dict T keys).readbvalue = false :=
  (foldl_keyStep_no_bvalue X dict T keys ⟨false, 0, []⟩ h).1

/-! ### From the options to the header -/

/-- With valid options and a readable input, `main` reaches the header stage. -/
theorem main_eq_processHeader (X : Ext) (W : World) (vm : VariablesMap) (vol : DWIVolume)
    (step sigma : ℚ)
    (hhelp : vm.count "help" = 0) (hdwi : vm.count "dwi-image" ≠ 0)
    (hout : vm.count "tensor-output" ≠ 0)
    (hstep : readStep vm = some step) (hsigma : readSigma vm = some sigma)
    (hread : W.readDWI ((vm.asString "dwi-image").getD "") = some vol) :
    main X W vm = processHeader X W vm vol step sigma
      [.readDWI ((vm.asString "dwi-image").getD "")] := by
  unfold main
  have hc : ¬ (vm.count "help" ≠ 0 ∨ vm.count "dwi-image" = 0 ∨ vm.count "tensor-output" = 0) := by
    rintro (h | h | h)
    · exact h hhelp
    · exact hdwi h
    · exact hout h
  rw [if_neg hc]
  simp only [hstep, hsigma, hread]

/-! ### The method validator -/

/-- C3 (as stated, refuted): the validator accepts `"linear"`, which is none of
`"lls"`, `"nls"`, `"wls"`, `"ml"`, and maps it to LinearEstimate. -/
theorem validate_accepts_linear_alias :
    validate none ["linear"] = .ok .LinearEstimate ∧
    "linear" ∉ ["lls", "nls", "wls", "ml"] ∧
    ¬ (∀ s : String, (∃ t, validate none [s] = .ok t) ↔ s ∈ ["lls", "nls", "wls", "ml"]) := by
  refine ⟨by decide, by decide, ?_⟩
  intro h
  have h1 : ∃ t, validate none ["linear"] = .ok t := ⟨.LinearEstimate, by decide⟩
  have h2 := (h "linear").mp h1
  revert h2
  decide

/-- C3 (amended): the validator accepts a single string iff it is one of `"lls"`,
`"linear"`, `"nls"`, `"nonlinear"`, `"wls"`, `"weighted"`, `"ml"`; the first two map
to LinearEstimate, the next two to NonlinearEstimate, the next two to
WeightedEstimate and `"ml"` to MaximumLikelihoodEstimate; every other string is
rejected with the validation error. -/
theorem validate_accepts_iff (s : String) :
    ((∃ t, validate none [s] = .ok t) ↔
      s ∈ ["lls", "linear", "nls", "nonlinear", "wls", "weighted", "ml"]) ∧
    (validate none [s] = .ok .LinearEstimate ↔ (s = "lls" ∨ s = "linear")) ∧
    (validate none [s] = .ok .NonlinearEstimate ↔ (s = "nls" ∨ s = "nonlinear")) ∧
    (validate none [s] = .ok .WeightedEstimate ↔ (s = "wls" ∨ s = "weighted")) ∧
    (validate none [s] = .ok .MaximumLikelihoodEstimate ↔ s = "ml") ∧
    (s ∉ ["lls", "linear", "nls", "nonlinear", "wls", "weighted", "ml"] ↔
      validate none [s] = .error (.validation_error estimationTypeMessage)) := by
  simp only [validate, validateString]
  by_cases h1 : s = "lls" ∨ s = "linear"
  · rcases h1 with h | h <;> subst h <;>
      exact ⟨⟨fun _ => by decide, fun _ => ⟨.LinearEstimate, by decide⟩⟩,
        by decide, by decide, by decide, by decide, by decide⟩
  by_cases h2 : s = "nls" ∨ s = "nonlinear"
  · rcases h2 with h | h <;> subst h <;>
      exact ⟨⟨fun _ => by decide, fun _ => ⟨.NonlinearEstimate, by decide⟩⟩,
        by decide, by decide, by decide, by decide, by decide⟩
  by_cases h3 : s = "wls" ∨ s = "weighted"
  · rcases h3 with h | h <;> subst h <;>
      exact ⟨⟨fun _ => by decide, fun _ => ⟨.WeightedEstimate, by decide⟩⟩,
        by decide, by decide, by decide, by decide, by decide⟩
  by_cases h4 : s = "ml"
  · subst h4
    exact ⟨⟨fun _ => by decide, fun _ => ⟨.MaximumLikelihoodEstimate, by decide⟩⟩,
        by decide, by decide, by decide, by decide, by decide⟩
  · simp only [if_neg h1, if_neg h2, if_neg h3, if_neg h4]
    push_neg at h1 h2 h3
    simp [h1.1, h1.2, h2.1, h2.2, h3.1, h3.2, h4]

/-! ### Required parameters -/

/-- C1: with valid options and a readable input volume, a dictionary none of
whose keys contains `"DWMRI_b-value"` makes the run return failure right after
the read (no masking, threshold, estimation or output event); when such a key
exists the check at line 384 passes, and the b-value given to every estimator
is `atof` of the string stored under that key (the last such key in key
order). -/
theorem bvalue_required (X : Ext) (W : World) (vm : VariablesMap) (vol : DWIVolume)
    (hhelp : vm.count "help" = 0) (hdwi : vm.count "dwi-image" ≠ 0)
    (hout : vm.count "tensor-output" ≠ 0)
    (hstep : readStep vm ≠ none) (hsigma : readSigma vm ≠ none)
    (hread : W.readDWI ((vm.asString "dwi-image").getD "") = some vol) :
    ((∀ key ∈ GetKeys vol.dict, contains key "DWMRI_b-value" = false) →
      main X W vm = ⟨.EXIT_FAILURE, [.readDWI ((vm.asString "dwi-image").getD "")]⟩) ∧
    ((∃ key ∈ GetKeys vol.dict, contains key "DWMRI_b-value" = true) →
      (readHeader X vol).readbvalue = true ∧
      ∃ pre key post, GetKeys vol.dict = pre ++ key :: post ∧
        contains key "DWMRI_b-value" = true ∧
        (∀ k ∈ post, contains k "DWMRI_b-value" = false) ∧
        (readHeader X vol).b0 = X.atof (ExposeString vol.dict key) ∧
        ∀ k s, Event.estimate k s ∈ (main X W vm).events →
          s.bValue = X.atof (ExposeString vol.dict key)) := by
  obtain ⟨step, hstep⟩ := Option.ne_none_iff_exists'.mp hstep
  obtain ⟨sigma, hsigma⟩ := Option.ne_none_iff_exists'.mp hsigma
  have hmain := main_eq_processHeader X W vm vol step sigma hhelp hdwi hout hstep hsigma hread
  have hrb : (readHeader X vol).readbvalue =
      (parseKeys X (rewriteDict vol) (headerTransform X vol) (GetKeys vol.dict)).readbvalue := by
    show (parseKeys X (rewriteDict vol) (headerTransform X vol)
      (GetKeys (rewriteDict vol))).readbvalue = _
    rw [GetKeys_rewriteDict]
  have hb0 : (readHeader X vol).b0 =
      (parseKeys X (rewriteDict vol) (headerTransform X vol) (GetKeys vol.dict)).b0 := by
    show (parseKeys X (rewriteDict vol) (headerTransform X vol)
      (GetKeys (rewriteDict vol))).b0 = _
    rw [GetKeys_rewriteDict]
  constructor
  · intro hno
    have hfalse : (readHeader X vol).readbvalue = false := by
      rw [hrb]
      exact parseKeys_no_bvalue X _ _ _ hno
    have hd : ∀ e ∈ [Event.readDWI ((vm.asString "dwi-image").getD "")],
        e.isInput = true := by
      intro e he
      simp only [List.mem_singleton] at he
      subst he
      rfl
    rw [hmain]
    rcases processHeader_cases X W vm vol step sigma _ hd with h | ⟨_, _, hb, _⟩
    · exact h.2.2 hfalse
    · rw [hfalse] at hb
      cases hb
  · intro hex
    obtain ⟨pre, key, post, hkeys, hkey, hpost⟩ :=
      exists_last_of_exists (fun k => contains k "DWMRI_b-value") (GetKeys vol.dict) hex
    have hp := parseKeys_bvalue X (rewriteDict vol) (headerTransform X vol) pre post key hkey hpost
    rw [← hkeys] at hp
    have hne1 : key ≠ NRRD_MEASUREMENT_KEY := ne_of_contains hkey (by decide)
    have hne2 : key ≠ "modality" := ne_of_contains hkey (by decide)
    rw [ExposeString_rewriteDict vol key hne1 hne2] at hp
    have hb0' : (readHeader X vol).b0 = X.atof (ExposeString vol.dict key) := by
      rw [hb0]
      exact hp.2
    refine ⟨by rw [hrb]; exact hp.1, pre, key, post, hkeys, hkey, hpost, hb0', ?_⟩
    intro k s hks
    obtain ⟨vol2, step2, sigma2, dwi, hr2, _, _, _, _, hmem⟩ := estimate_mem_main hks
    rw [hread] at hr2
    cases hr2
    rw [(estimate_common_settings hmem).2.2.1]
    exact hb0'

/-- C1, at sample inputs: a header without b-value entry stops the run after the
read; a header with the entry `"1000"` passes the check. -/
theorem bvalue_required_witness :
    main sampleExt (sampleWorldOf sampleVolumeNoBValue) (sampleOptions .LinearEstimate none) =
      ⟨.EXIT_FAILURE, [.readDWI "dwi.nrrd"]⟩ ∧
    (readHeader sampleExt sampleVolume).readbvalue = true :=
  ⟨(bvalue_required sampleExt (sampleWorldOf sampleVolumeNoBValue)
      (sampleOptions .LinearEstimate none) sampleVolumeNoBValue
      (by decide) (by decide) (by decide) (by decide) (by decide) rfl).1 (by decide),
   ((bvalue_required sampleExt sampleWorld (sampleOptions .LinearEstimate none) sampleVolume
      (by decide) (by decide) (by decide) (by decide) (by decide) rfl).2
      ⟨"DWMRI_b-value", by decide, by decide⟩).1⟩

/-- C2: the sigma validation (lines 209-221) fails iff the method is
MaximumLikelihoodEstimate and no sigma is stored.  For ML without sigma the run
does nothing (the volume is not read) and, unless help was requested, returns
failure; for the other methods a missing sigma leaves `sigma = 0` and no filter
is given a sigma; a supplied sigma is the value read, and the one set on the ML
filter. -/
theorem sigma_validation (X : Ext) (W : World) (vm : VariablesMap) :
    (readSigma vm = none ↔ (vm.method = .MaximumLikelihoodEstimate ∧ vm.sigma = none)) ∧
    (vm.method = .MaximumLikelihoodEstimate → vm.sigma = none →
      (main X W vm).events = [] ∧
      (vm.count "help" = 0 → (main X W vm).exit = .EXIT_FAILURE)) ∧
    (vm.method ≠ .MaximumLikelihoodEstimate → vm.sigma = none →
      readSigma vm = some 0 ∧
      ∀ k s, Event.estimate k s ∈ (main X W vm).events → s.sigma = none) ∧
    (∀ σ, vm.sigma = some σ →
      readSigma vm = some σ ∧
      ∀ s, Event.estimate .MaximumLikelihoodEstimate s ∈ (main X W vm).events →
        s.sigma = some σ) := by
  refine ⟨?_, ?_, ?_, ?_⟩
  · unfold readSigma
    cases hs : vm.sigma with
    | none =>
      by_cases hm : vm.method = .MaximumLikelihoodEstimate
      · simp [hm]
      · simp [hm]
    | some σ => simp
  · intro hm hs
    have hsig : readSigma vm = none := by
      unfold readSigma
      rw [hs]
      simp only [hm, if_true]
    unfold main
    split_ifs with h0 h1
    · exact ⟨rfl, fun hh => absurd hh h1⟩
    · exact ⟨rfl, fun _ => rfl⟩
    · cases hstep : readStep vm with
      | none => exact ⟨rfl, fun _ => rfl⟩
      | some step =>
        simp only [hsig]
        exact ⟨trivial, fun _ => trivial⟩
  · intro hm hs
    refine ⟨?_, ?_⟩
    · unfold readSigma
      rw [hs]
      simp only [hm, if_false]
    · intro k s hks
      obtain ⟨vol, step, sigma, dwi, _, _, _, _, _, hmem⟩ := estimate_mem_main hks
      rcases estimate_mem_estimateTensors hmem with ⟨_, h⟩ | ⟨_, h⟩
      · subst h
        rfl
      · unfold branchSettings at h
        split at h
        · cases h
        · simp only [Option.some.injEq] at h
          subst h
          rfl
        · simp only [Option.some.injEq] at h
          subst h
          rfl
        · rename_i hml
          exact absurd hml hm
  · intro σ hs
    have hsig : readSigma vm = some σ := by
      unfold readSigma
      rw [hs]
    refine ⟨hsig, ?_⟩
    intro s hks
    obtain ⟨vol, step, sigma, dwi, _, _, hg, _, _, hmem⟩ := estimate_mem_main hks
    rw [hsig] at hg
    cases hg
    rcases estimate_mem_estimateTensors hmem with ⟨h, _⟩ | ⟨hk, h⟩
    · cases h
    · unfold branchSettings at h
      rw [← hk] at h
      simp only [Option.some.injEq] at h
      subst h
      rfl

/-- C2, at sample inputs: `-m ml` without `--sigma` ends the run with failure
before anything is read. -/
theorem sigma_validation_witness :
    (main sampleExt sampleWorld (sampleOptions .MaximumLikelihoodEstimate none)).events = [] ∧
    (main sampleExt sampleWorld (sampleOptions .MaximumLikelihoodEstimate none)).exit =
      .EXIT_FAILURE ∧
    readSigma (sampleOptions .WeightedEstimate none) = some 0 ∧
    readSigma (sampleOptions .MaximumLikelihoodEstimate (some 5)) = some 5 :=
  ⟨((sigma_validation sampleExt sampleWorld
      (sampleOptions .MaximumLikelihoodEstimate none)).2.1 rfl rfl).1,
   ((sigma_validation sampleExt sampleWorld
      (sampleOptions .MaximumLikelihoodEstimate none)).2.1 rfl rfl).2 (by decide),
   ((sigma_validation sampleExt sampleWorld
      (sampleOptions .WeightedEstimate none)).2.2.1 (by decide) rfl).1,
   ((sigma_validation sampleExt sampleWorld
      (sampleOptions .MaximumLikelihoodEstimate (some 5))).2.2.2 5 rfl).1⟩


/-! ### Estimator dispatch -/

/-- The image `tensors` after lines 634-699 is the output of the filter of the
selected method, which is among the filters that ran. -/
theorem estimateTensors_selected (X : Ext) (vm : VariablesMap) (grads : List Vec3)
    (dwi : VectorImage) (b0 thr step sigma : ℚ) :
    ∃ s, (estimateTensors X vm grads dwi b0 thr step sigma).1 = X.estimator vm.method s ∧
      Event.estimate vm.method s ∈ (estimateTensors X vm grads dwi b0 thr step sigma).2 := by
  unfold estimateTensors
  dsimp only
  cases hm : vm.method <;> simp [branchSettings, hm]

/-- C4: whenever `main` writes a tensor volume, that volume is the output of the
filter of the selected method (`X.estimator vm.method`), and every filter that
ran, the selected one included, was given the reoriented and expanded gradient
table of the header, the masked volume, the b-value of the header and the
threshold of lines 459-484. -/
theorem written_tensor_is_selected (X : Ext) (W : World) (vm : VariablesMap) (f : String)
    (t : TensorImage) (d : MetaDataDictionary)
    (h : Event.writeTensor f t d ∈ (main X W vm).events) :
    ∃ vol dwi,
      W.readDWI ((vm.asString "dwi-image").getD "") = some vol ∧
      maskedVolume W vm vol.image = some dwi ∧
      (∃ s, t = X.estimator vm.method s ∧
        Event.estimate vm.method s ∈ (main X W vm).events) ∧
      ∀ k s, Event.estimate k s ∈ (main X W vm).events →
        s.gradients = (readHeader X vol).gradientContainer ∧ s.image = dwi ∧
        s.bValue = (readHeader X vol).b0 ∧
        s.threshold = (computeThreshold X vm vol.image).1 := by
  obtain ⟨vol, step, sigma, dwi, hr, hs, hg, _, hmask, ht, _, _, hsub⟩ := writeTensor_mem_main h
  refine ⟨vol, dwi, hr, hmask, ?_, ?_⟩
  · obtain ⟨s, hs1, hs2⟩ := estimateTensors_selected X vm (readHeader X vol).gradientContainer
      dwi (readHeader X vol).b0 (computeThreshold X vm vol.image).1 step sigma
    exact ⟨s, ht.trans hs1, hsub _ hs2⟩
  · intro k s hks
    obtain ⟨vol2, step2, sigma2, dwi2, hr2, _, _, _, hmask2, hmem⟩ := estimate_mem_main hks
    rw [hr] at hr2
    cases hr2
    rw [hmask] at hmask2
    cases hmask2
    exact estimate_common_settings hmem

/-- C4, at sample inputs: with `-m wls` the volume written to `out.nrrd` is the
output of the weighted filter. -/
theorem written_tensor_is_selected_witness :
    Event.writeTensor "out.nrrd" [[1000, 900, 2]] (rewriteDict sampleVolume) ∈
      (main sampleExt sampleWorld (sampleOptions .WeightedEstimate none)).events ∧
    ∃ vol dwi,
      sampleWorld.readDWI "dwi.nrrd" = some vol ∧
      maskedVolume sampleWorld (sampleOptions .WeightedEstimate none) vol.image = some dwi ∧
      (∃ s, [[1000, 900, 2]] = sampleExt.estimator .WeightedEstimate s ∧
        Event.estimate .WeightedEstimate s ∈
          (main sampleExt sampleWorld (sampleOptions .WeightedEstimate none)).events) ∧
      ∀ k s, Event.estimate k s ∈
          (main sampleExt sampleWorld (sampleOptions .WeightedEstimate none)).events →
        s.gradients = (readHeader sampleExt vol).gradientContainer ∧ s.image = dwi ∧
        s.bValue = (readHeader sampleExt vol).b0 ∧
        s.threshold = (computeThreshold sampleExt (sampleOptions .WeightedEstimate none)
          vol.image).1 :=
  ⟨by decide!,
   written_tensor_is_selected sampleExt sampleWorld (sampleOptions .WeightedEstimate none)
     "out.nrrd" [[1000, 900, 2]] (rewriteDict sampleVolume) (by decide!)⟩

/-! ### Reorientation -/

theorem isBaseline_iff (g : Vec3) : isBaseline g = true ↔ g = 0 := by
  unfold isBaseline
  simp only [Bool.and_eq_true, decide_eq_true_eq]
  constructor
  · rintro ⟨⟨h0, h1⟩, h2⟩
    funext i
    fin_cases i
    · exact h0
    · exact h1
    · exact h2
  · intro h
    subst h
    exact ⟨⟨rfl, rfl⟩, rfl⟩

/-- C6: for a rotation `R` (`Rᵀ * R = 1`), reorienting a gradient table by `R`
and then by `Rᵀ` gives back the table, and the baseline status of every entry
is the same after the first reorientation and after the round trip. -/
theorem reorient_round_trip (R : Mat3) (table : List Vec3) (hR : R.transpose * R = 1) :
    reorient R.transpose (reorient R table) = table ∧
    (reorient R table).map isBaseline = table.map isBaseline ∧
    (reorient R.transpose (reorient R table)).map isBaseline = table.map isBaseline := by
  have hback : ∀ g : Vec3, R.transpose.mulVec (R.mulVec g) = g := by
    intro g
    rw [Matrix.mulVec_mulVec, hR, Matrix.one_mulVec]
  have hround : reorient R.transpose (reorient R table) = table := by
    unfold reorient
    rw [List.map_map]
    conv_rhs => rw [← List.map_id table]
    apply List.map_congr_left
    intro g _
    exact hback g
  refine ⟨hround, ?_, by rw [hround]⟩
  unfold reorient
  rw [List.map_map]
  apply List.map_congr_left
  intro g _
  simp only [Function.comp_apply]
  rw [Bool.eq_iff_iff, isBaseline_iff, isBaseline_iff]
  constructor
  · intro h
    have := hback g
    rw [h, Matrix.mulVec_zero] at this
    exact this.symm
  · intro h
    rw [h, Matrix.mulVec_zero]

/-- C6, at a sample input: a quarter turn and its transpose on a table with one
sensitised direction and one baseline. -/
theorem reorient_round_trip_witness :
    quarterTurn.transpose * quarterTurn = 1 ∧
    reorient quarterTurn.transpose (reorient quarterTurn [![1, 0, 0], ![0, 0, 0]]) =
      [![1, 0, 0], ![0, 0, 0]] :=
  ⟨by decide!, (reorient_round_trip quarterTurn [![1, 0, 0], ![0, 0, 0]] (by decide!)).1⟩

/-! ### Threshold -/

/-- C8: a supplied `--threshold` is the threshold, whatever the image, and no
Otsu computation takes place; otherwise the threshold is the scalar cast of
`0.9` times the Otsu threshold of the extracted channel, which does not exceed
the Otsu threshold when that is non-negative and the cast does not increase
non-negative values (truncation).  Every filter that runs is given this
threshold. -/
theorem threshold_selection (X : Ext) (W : World) (vm : VariablesMap) :
    (∀ t, vm.threshold = some t → ∀ raw, computeThreshold X vm raw = (t, [])) ∧
    (vm.threshold = none → ∀ raw,
      computeThreshold X vm raw =
        (X.toScalar (9 / 10 * X.otsu (extractChannel raw otsuChannel)),
         [.otsu otsuChannel (X.otsu (extractChannel raw otsuChannel))]) ∧
      ((∀ x, 0 ≤ x → X.toScalar x ≤ x) → 0 ≤ X.otsu (extractChannel raw otsuChannel) →
        (computeThreshold X vm raw).1 ≤ X.otsu (extractChannel raw otsuChannel))) ∧
    (∀ k s, Event.estimate k s ∈ (main X W vm).events →
      ∃ vol, W.readDWI ((vm.asString "dwi-image").getD "") = some vol ∧
        s.threshold = (computeThreshold X vm vol.image).1) := by
  refine ⟨?_, ?_, ?_⟩
  · intro t ht raw
    unfold computeThreshold
    have hc : vm.count "threshold" ≠ 0 := by
      show (if vm.threshold.isSome then 1 else 0) ≠ 0
      rw [ht]
      simp
    rw [if_pos hc, ht]
    rfl
  · intro ht raw
    have hc : ¬ vm.count "threshold" ≠ 0 := by
      show ¬ (if vm.threshold.isSome then 1 else 0) ≠ 0
      rw [ht]
      simp
    have heq : computeThreshold X vm raw =
        (X.toScalar (9 / 10 * X.otsu (extractChannel raw otsuChannel)),
         [.otsu otsuChannel (X.otsu (extractChannel raw otsuChannel))]) := by
      unfold computeThreshold
      rw [if_neg hc]
    refine ⟨heq, ?_⟩
    intro hcast hpos
    rw [heq]
    have h1 : (0 : ℚ) ≤ 9 / 10 * X.otsu (extractChannel raw otsuChannel) := by positivity
    have h2 := hcast _ h1
    show X.toScalar (9 / 10 * X.otsu (extractChannel raw otsuChannel)) ≤ _
    linarith
  · intro k s hks
    obtain ⟨vol, step, sigma, dwi, hr, _, _, _, _, hmem⟩ := estimate_mem_main hks
    exact ⟨vol, hr, (estimate_common_settings hmem).2.2.2⟩

/-- C8, at sample inputs: a supplied threshold of 50 is used as is; without one
the truncating cast of `0.9 * 1001` gives 900, below the Otsu value 1001. -/
theorem threshold_selection_witness :
    computeThreshold sampleExt
      { sampleOptions .LinearEstimate none with threshold := some 50 } [[1001, 606]] = (50, []) ∧
    (computeThreshold sampleExt (sampleOptions .LinearEstimate none) [[1001, 606]]).1 ≤
      sampleExt.otsu (extractChannel [[1001, 606]] otsuChannel) :=
  ⟨(threshold_selection sampleExt sampleWorld
      { sampleOptions .LinearEstimate none with threshold := some 50 }).1 50 rfl [[1001, 606]],
   ((threshold_selection sampleExt sampleWorld (sampleOptions .LinearEstimate none)).2.1 rfl
      [[1001, 606]]).2 (fun x _ => Int.floor_le x) (by decide!)⟩

/-- C9 (the code at a failing input): the header of `baselineSecondVolume` has a
baseline direction, at index 1; without `--threshold` the Otsu threshold is
computed on channel 0, whose direction `(1, 0, 0)` is not a baseline. -/
theorem otsu_channel_not_baseline :
    (readHeader sampleExt baselineSecondVolume).gradientContainer = [![1, 0, 0], ![0, 0, 0]] ∧
    (∃ g ∈ (readHeader sampleExt baselineSecondVolume).gradientContainer, isBaseline g = true) ∧
    Event.otsu 0 606 ∈ (main sampleExt (sampleWorldOf baselineSecondVolume)
      (sampleOptions .LinearEstimate none)).events ∧
    isBaseline (GetElement sampleExt.defaultGradient
      (readHeader sampleExt baselineSecondVolume).gradientContainer otsuChannel) = false := by
  refine ⟨by decide!, ⟨![0, 0, 0], by decide!, by decide!⟩, by decide!, by decide!⟩

/-! ### The gradient container -/

theorem InsertElement_getElem?_self (dflt : Vec3) (ctr : List Vec3) (i : Nat) (g : Vec3) :
    (InsertElement dflt ctr i g)[i]? = some g := by
  unfold InsertElement
  split_ifs with h
  · rw [List.getElem?_set]
    simp [h]
  · have hlen : (ctr ++ List.replicate (i - ctr.length) dflt).length = i := by
      rw [List.length_append, List.length_replicate]
      omega
    have := List.getElem?_concat_length (ctr ++ List.replicate (i - ctr.length) dflt) g
    rw [hlen] at this
    exact this

theorem InsertElement_getElem?_ne (dflt : Vec3) (ctr : List Vec3) (i j : Nat) (g : Vec3)
    (hi : i ≤ ctr.length) (hj : j ≠ i) : (InsertElement dflt ctr i g)[j]? = ctr[j]? := by
  unfold InsertElement
  split_ifs with h
  · exact List.getElem?_set_ne (Ne.symm hj)
  · have hil : i = ctr.length := by omega
    subst hil
    simp only [Nat.sub_self, List.replicate_zero, List.append_nil]
    by_cases hjl : j < ctr.length
    · rw [List.getElem?_append_left hjl]
    · have hgt : ctr.length < j := by omega
      rw [List.getElem?_eq_none (by simp; omega), List.getElem?_eq_none (by omega)]

theorem InsertElement_length (dflt : Vec3) (ctr : List Vec3) (i : Nat) (g : Vec3) :
    (InsertElement dflt ctr i g).length = max ctr.length (i + 1) := by
  unfold InsertElement
  split_ifs with h
  · rw [List.length_set]
    omega
  · simp only [List.length_append, List.length_replicate, List.length_singleton]
    omega

/-- Inserting the same element at `m` consecutive indices from `s` on, where `s` is
at most the size: exactly those indices hold the element afterwards. -/
theorem foldl_InsertElement_range (dflt g : Vec3) (m : Nat) :
    ∀ (ctr : List Vec3) (s : Nat), s ≤ ctr.length → ∀ j,
      ((List.range' s m).foldl (fun ctr i => InsertElement dflt ctr i g) ctr)[j]? =
        if s ≤ j ∧ j < s + m then some g else ctr[j]? := by
  induction m with
  | zero =>
    intro ctr s _ j
    have : ¬ (s ≤ j ∧ j < s + 0) := by omega
    rw [if_neg this]
    rfl
  | succ m ih =>
    intro ctr s hs j
    rw [List.range'_succ, List.foldl_cons]
    have hlen : s + 1 ≤ (InsertElement dflt ctr s g).length := by
      rw [InsertElement_length]
      omega
    rw [ih (InsertElement dflt ctr s g) (s + 1) hlen j]
    by_cases hjs : j = s
    · subst hjs
      have h1 : ¬ (j + 1 ≤ j ∧ j < j + 1 + m) := by omega
      have h2 : j ≤ j ∧ j < j + (m + 1) := by omega
      rw [if_neg h1, if_pos h2]
      exact InsertElement_getElem?_self dflt ctr j g
    · rw [InsertElement_getElem?_ne dflt ctr s j g hs hjs]
      by_cases hr : s + 1 ≤ j ∧ j < s + 1 + m
      · have h2 : s ≤ j ∧ j < s + (m + 1) := by omega
        rw [if_pos hr, if_pos h2]
      · have h2 : ¬ (s ≤ j ∧ j < s + (m + 1)) := by omega
        rw [if_neg hr, if_neg h2]

/-- C7: for a repeat entry with index `k` present in the table and count `N`,
both non-negative `int` values as `atoi` reads them, the expansion leaves at
every index `k .. k+N-1` the direction stored at `k`, keeps every index outside
`k+1 .. k+N-1` as it was (absent indices stay absent), and changes nothing for
`N = 0` and `N = 1`; this expansion is what the loop body does for a key holding
`"DWMRI_NEX"` with index `k` and count `N`. -/
theorem nex_expansion (dflt : Vec3) (ctr : List Vec3) (k N : Nat)
    (hk : k < ctr.length) (hkint : k < INT_MOD) (hNint : N < INT_MOD) :
    (∀ j, k ≤ j → j < k + N → (expandNEX dflt ctr k N)[j]? = ctr[k]?) ∧
    (∀ j, ¬ (k + 1 ≤ j ∧ j < k + N) → (expandNEX dflt ctr k N)[j]? = ctr[j]?) ∧
    (1 ≤ N → (expandNEX dflt ctr k N).length = max ctr.length (k + N)) ∧
    (N = 0 ∨ N = 1 → expandNEX dflt ctr k N = ctr) ∧
    (∀ (X : Ext) (dict : MetaDataDictionary) (key : String),
      contains key "DWMRI_NEX" = true → keyIndex key = k →
      toUnsigned (atoi (ExposeString dict key).toList) = N → X.defaultGradient = dflt →
      nexStep X dict ctr key = expandNEX dflt ctr k N) := by
  have hfirst : (k + 1) % UINT_MOD = k + 1 :=
    Nat.mod_eq_of_lt (by unfold UINT_MOD; unfold INT_MOD at hkint; omega)
  have hstop : (k + N) % UINT_MOD = k + N :=
    Nat.mod_eq_of_lt (by unfold UINT_MOD; unfold INT_MOD at hkint hNint; omega)
  have hg : ctr[k]? = some (GetElement dflt ctr k) := by
    unfold GetElement
    rw [List.getD_eq_getElem?_getD, List.getElem?_eq_getElem hk]
    rfl
  have hget : ∀ j, (expandNEX dflt ctr k N)[j]? =
      if k + 1 ≤ j ∧ j < k + 1 + (k + N - (k + 1)) then some (GetElement dflt ctr k)
      else ctr[j]? := by
    intro j
    unfold expandNEX
    dsimp only
    rw [hfirst, hstop]
    exact foldl_InsertElement_range dflt _ _ ctr (k + 1) (by omega) j
  have hout : ∀ j, ¬ (k + 1 ≤ j ∧ j < k + N) → (expandNEX dflt ctr k N)[j]? = ctr[j]? := by
    intro j hj
    rw [hget j, if_neg (by omega)]
  refine ⟨?_, hout, ?_, ?_, ?_⟩
  rotate_left 3
  · intro X dict key hkey hk2 hN2 hd
    unfold nexStep
    rw [if_pos hkey]
    dsimp only
    rw [hk2, hN2, hd]
  · intro j h1 h2
    by_cases hjk : j = k
    · subst hjk
      exact hout j (by omega)
    · rw [hget j, if_pos (by omega), hg]
  · intro hN
    unfold expandNEX
    dsimp only
    rw [hfirst, hstop]
    generalize GetElement dflt ctr k = g
    have hlen : ∀ (m : Nat) (ctr : List Vec3) (s : Nat), s ≤ ctr.length →
        ((List.range' s m).foldl (fun ctr i => InsertElement dflt ctr i g) ctr).length =
          max ctr.length (s + m) := by
      intro m
      induction m with
      | zero =>
        intro ctr s hs
        simp only [List.range'_zero, List.foldl_nil]
        omega
      | succ m ih =>
        intro ctr s hs
        rw [List.range'_succ, List.foldl_cons, ih _ (s + 1) (by rw [InsertElement_length]; omega),
          InsertElement_length]
        omega
    rw [hlen _ ctr (k + 1) (by omega)]
    omega
  · intro hN
    apply List.ext_getElem?
    intro j
    exact hout j (by omega)

/-- C7, at a sample input: index 1 repeated three times in a table of two. -/
theorem nex_expansion_witness :
    expandNEX ![0, 0, 0] sampleTable 1 3 = [![1, 0, 0], ![0, 1, 0], ![0, 1, 0], ![0, 1, 0]] ∧
    (∀ j, 1 ≤ j → j < 1 + 3 → (expandNEX ![0, 0, 0] sampleTable 1 3)[j]? = sampleTable[1]?) ∧
    expandNEX ![0, 0, 0] sampleTable 1 1 = sampleTable :=
  ⟨by decide!,
   (nex_expansion ![0, 0, 0] sampleTable 1 3 (by decide) (by decide) (by decide)).1,
   (nex_expansion ![0, 0, 0] sampleTable 1 1 (by decide) (by decide) (by decide)).2.2.2.1
     (Or.inr rfl)⟩

/-! ### Gradient parsing and reorientation -/

theorem nonzero_iff_not_isBaseline (g : Vec3) :
    (g 0 ≠ 0 ∨ g 1 ≠ 0 ∨ g 2 ≠ 0) ↔ isBaseline g = false := by
  unfold isBaseline
  by_cases h0 : g 0 = 0 <;> by_cases h1 : g 1 = 0 <;> by_cases h2 : g 2 = 0 <;>
    simp [h0, h1, h2]

theorem zipWith_add_map (X : Ext) (dwi : VectorImage) (a b : List ℚ → ℚ) :
    List.zipWith X.add (dwi.map a) (dwi.map b) = dwi.map (fun v => X.add (a v) (b v)) := by
  induction dwi with
  | nil => rfl
  | cons v vs ih =>
    simp only [List.map_cons, List.zipWith_cons_cons, ih]

/-- The channel filter does not throw when the index is a channel of every
voxel. -/
theorem selectChannel_eq (dwi : VectorImage) (i : Nat) (hi : ∀ v ∈ dwi, i < v.length) :
    selectChannel dwi i = some (extractChannel dwi i) := by
  unfold selectChannel
  rw [if_pos]
  rw [List.all_eq_true]
  intro v hv
  exact decide_eq_true (hi v hv)

theorem idwiStep_baseline (X : Ext) (dwi : VectorImage) (st : IdwiState) (i : Nat) (g : Vec3)
    (hg : isBaseline g = true) : idwiStep X dwi st i g = st := by
  unfold idwiStep
  have : ¬ (g 0 ≠ 0 ∨ g 1 ≠ 0 ∨ g 2 ≠ 0) := by
    rw [nonzero_iff_not_isBaseline, hg]
    decide
  rw [if_neg this]

theorem idwiStep_first (X : Ext) (dwi : VectorImage) (i : Nat) (g : Vec3)
    (hg : isBaseline g = false) (hi : ∀ v ∈ dwi, i < v.length) :
    idwiStep X dwi ⟨0, none⟩ i g = ⟨1, some (dwi.map (fun v => X.log (v.getD i 0)))⟩ := by
  unfold idwiStep
  rw [if_pos ((nonzero_iff_not_isBaseline g).mpr hg), selectChannel_eq dwi i hi]
  simp only [extractChannel, List.map_map, if_true, Nat.zero_add]
  rfl

theorem idwiStep_next (X : Ext) (dwi : VectorImage) (n : Nat) (f : List ℚ → ℚ) (i : Nat)
    (g : Vec3) (hn : n ≠ 0) (hg : isBaseline g = false) (hi : ∀ v ∈ dwi, i < v.length) :
    idwiStep X dwi ⟨n, some (dwi.map f)⟩ i g =
      ⟨n + 1, some (dwi.map (fun v => X.add (X.log (v.getD i 0)) (f v)))⟩ := by
  unfold idwiStep
  rw [if_pos ((nonzero_iff_not_isBaseline g).mpr hg), selectChannel_eq dwi i hi]
  simp only [if_neg hn]
  have : (extractChannel dwi i).map X.log = dwi.map (fun v => X.log (v.getD i 0)) := by
    simp only [extractChannel, List.map_map]
    rfl
  rw [this, zipWith_add_map]

theorem nonBaselineChannels_cons_true (ch : Nat × Vec3) (chs : List (Nat × Vec3))
    (hg : isBaseline ch.2 = true) : nonBaselineChannels (ch :: chs) = nonBaselineChannels chs := by
  simp [nonBaselineChannels, hg]

theorem nonBaselineChannels_cons_false (ch : Nat × Vec3) (chs : List (Nat × Vec3))
    (hg : isBaseline ch.2 = false) :
    nonBaselineChannels (ch :: chs) = ch :: nonBaselineChannels chs := by
  simp [nonBaselineChannels, hg]

theorem idwiLoop_some (X : Ext) (dwi : VectorImage) (channels : List (Nat × Vec3)) :
    (∀ ch ∈ nonBaselineChannels channels, ∀ v ∈ dwi, ch.1 < v.length) →
    ∀ (n : Nat) (f : List ℚ → ℚ), n ≠ 0 →
      idwiLoop X dwi channels ⟨n, some (dwi.map f)⟩ =
        ⟨n + (nonBaselineChannels channels).length,
          some (dwi.map (fun v =>
            ((nonBaselineChannels channels).map Prod.fst).foldl
              (fun acc j => X.add (X.log (v.getD j 0)) acc) (f v)))⟩ := by
  induction channels with
  | nil =>
    intro _ n f _
    simp [idwiLoop, nonBaselineChannels]
  | cons ch chs ih =>
    intro havail n f hn
    unfold idwiLoop at ih ⊢
    rw [List.foldl_cons]
    cases hg : isBaseline ch.2 with
    | true =>
      rw [nonBaselineChannels_cons_true ch chs hg] at havail ⊢
      rw [idwiStep_baseline X dwi _ _ _ hg, ih havail n f hn]
    | false =>
      rw [nonBaselineChannels_cons_false ch chs hg] at havail ⊢
      rw [idwiStep_next X dwi n f _ _ hn hg (havail ch (List.mem_cons_self _ _)),
        ih (fun c hc => havail c (List.mem_cons_of_mem _ hc)) (n + 1) _ (Nat.succ_ne_zero n)]
      simp only [List.length_cons, List.map_cons, List.foldl_cons]
      have e1 : n + 1 + (nonBaselineChannels chs).length =
          n + ((nonBaselineChannels chs).length + 1) := by omega
      rw [e1]

/-- The state after the loop when no filter throws: the number of non-baseline
channels and, when there is one, the image of the sums of their logarithms. -/
theorem idwiLoop_init (X : Ext) (dwi : VectorImage) (channels : List (Nat × Vec3)) :
    (∀ ch ∈ nonBaselineChannels channels, ∀ v ∈ dwi, ch.1 < v.length) →
    idwiLoop X dwi channels ⟨0, none⟩ =
      if nonBaselineChannels channels = [] then ⟨0, none⟩
      else ⟨(nonBaselineChannels channels).length,
        some (dwi.map (fun v => logSum X v ((nonBaselineChannels channels).map Prod.fst)))⟩ := by
  induction channels with
  | nil =>
    intro _
    simp [idwiLoop, nonBaselineChannels]
  | cons ch chs ih =>
    intro havail
    cases hg : isBaseline ch.2 with
    | true =>
      rw [nonBaselineChannels_cons_true ch chs hg] at havail ⊢
      rw [← ih havail]
      unfold idwiLoop
      rw [List.foldl_cons, idwiStep_baseline X dwi _ _ _ hg]
    | false =>
      rw [nonBaselineChannels_cons_false ch chs hg] at havail ⊢
      rw [if_neg (List.cons_ne_nil _ _)]
      have hloop : idwiLoop X dwi (ch :: chs) ⟨0, none⟩ =
          idwiLoop X dwi chs (idwiStep X dwi ⟨0, none⟩ ch.1 ch.2) := by
        unfold idwiLoop
        rw [List.foldl_cons]
      rw [hloop, idwiStep_first X dwi _ _ hg (havail ch (List.mem_cons_self _ _)),
        idwiLoop_some X dwi chs (fun c hc => havail c (List.mem_cons_of_mem _ hc)) 1 _
          (by decide)]
      simp only [List.length_cons, List.map_cons, logSum]
      rw [Nat.add_comm 1]

/-- The image of the IDWI block for any visiting order in which no filter
throws: `channelMean` at every voxel, provided there is a non-baseline channel. -/
theorem idwiImageOver_eq (X : Ext) (channels : List (Nat × Vec3)) (dwi : VectorImage)
    (havail : ∀ ch ∈ nonBaselineChannels channels, ∀ v ∈ dwi, ch.1 < v.length) :
    idwiImageOver X channels dwi =
      if nonBaselineChannels channels = [] then none
      else some (dwi.map (channelMean X channels)) := by
  unfold idwiImageOver
  dsimp only
  rw [idwiLoop_init X dwi channels havail]
  split_ifs with h
  · rfl
  · simp only [List.map_map]
    rfl

/-- The non-baseline channels of the loop are the non-baseline indices of the
table, in increasing order. -/
theorem nonBaselineChannels_indexed (gs : List Vec3) :
    ∀ s, (nonBaselineChannels (indexed gs s)).map Prod.fst =
      (List.range' s gs.length).filter (fun i => !isBaseline (gs.getD (i - s) 0)) := by
  induction gs with
  | nil =>
    intro s
    rfl
  | cons g gs ih =>
    intro s
    have htail : (List.range' (s + 1) gs.length).filter
          (fun i => !isBaseline ((g :: gs).getD (i - s) 0)) =
        (List.range' (s + 1) gs.length).filter
          (fun i => !isBaseline (gs.getD (i - (s + 1)) 0)) := by
      apply List.filter_congr
      intro i hi
      rw [List.mem_range'_1] at hi
      have : i - s = (i - (s + 1)) + 1 := by omega
      rw [this]
      rfl
    unfold indexed
    rw [List.length_cons, List.range'_succ]
    unfold nonBaselineChannels at ih ⊢
    rw [List.filter_cons, List.filter_cons]
    have hhead : (g :: gs).getD (s - s) 0 = g := by
      rw [Nat.sub_self]
      rfl
    rw [hhead]
    cases hg : isBaseline g with
    | true =>
      simp only [Bool.not_true, Bool.false_eq_true, if_false]
      rw [ih (s + 1), htail]
    | false =>
      simp only [Bool.not_false, if_true, List.map_cons]
      rw [ih (s + 1), htail]

/-- The indices of the table that are not baselines, as the loop sees them. -/
theorem nonBaselineChannels_fst (grads : List Vec3) :
    (nonBaselineChannels (indexed grads 0)).map Prod.fst = nonBaselineIndices grads := by
  rw [nonBaselineChannels_indexed grads 0]
  unfold nonBaselineIndices
  rw [List.range_eq_range']
  rfl

theorem channelMean_indexed (X : Ext) (grads : List Vec3) (v : List ℚ) :
    channelMean X (indexed grads 0) v = geometricMean X grads v := by
  unfold channelMean geometricMean
  rw [← nonBaselineChannels_fst grads, List.length_map]

theorem mem_nonBaselineIndices (grads : List Vec3) (i : Nat) :
    i ∈ nonBaselineIndices grads ↔
      ∃ g, grads[i]? = some g ∧ (g 0 ≠ 0 ∨ g 1 ≠ 0 ∨ g 2 ≠ 0) := by
  unfold nonBaselineIndices
  rw [List.mem_filter, List.mem_range]
  constructor
  · rintro ⟨hi, hb⟩
    refine ⟨grads[i], List.getElem?_eq_getElem hi, ?_⟩
    rw [nonzero_iff_not_isBaseline]
    rw [List.getD_eq_getElem?_getD, List.getElem?_eq_getElem hi] at hb
    simpa using hb
  · rintro ⟨g, hg, hb⟩
    obtain ⟨hi, hgi⟩ := List.getElem?_eq_some.mp hg
    refine ⟨hi, ?_⟩
    rw [List.getD_eq_getElem?_getD, hg]
    rw [nonzero_iff_not_isBaseline] at hb
    simpa using hb

theorem nonBaselineIndices_ne_nil (grads : List Vec3)
    (h : ∃ g ∈ grads, isBaseline g = false) : nonBaselineIndices grads ≠ [] := by
  obtain ⟨g, hg, hb⟩ := h
  obtain ⟨i, hi⟩ := List.getElem?_of_mem hg
  have hmem : i ∈ nonBaselineIndices grads :=
    (mem_nonBaselineIndices grads i).mpr ⟨g, hi, (nonzero_iff_not_isBaseline g).mpr hb⟩
  exact List.ne_nil_of_mem hmem

theorem nonBaselineChannels_ne_nil (grads : List Vec3)
    (h : ∃ g ∈ grads, isBaseline g = false) : nonBaselineChannels (indexed grads 0) ≠ [] := by
  intro hnil
  have h2 := nonBaselineChannels_fst grads
  rw [hnil] at h2
  exact nonBaselineIndices_ne_nil grads h h2.symm

/-- When every non-baseline index of the table is a channel of the volume, so is
the index of every non-baseline channel a part of the loop visits. -/
theorem channels_present (grads : List Vec3) (dwi : VectorImage)
    (hch : ∀ v ∈ dwi, ∀ i ∈ nonBaselineIndices grads, i < v.length)
    (channels : List (Nat × Vec3))
    (hsub : ∀ ch ∈ nonBaselineChannels channels, ch ∈ nonBaselineChannels (indexed grads 0)) :
    ∀ ch ∈ nonBaselineChannels channels, ∀ v ∈ dwi, ch.1 < v.length := by
  intro ch hmem v hv
  apply hch v hv
  rw [← nonBaselineChannels_fst grads]
  exact List.mem_map_of_mem Prod.fst (hsub ch hmem)

/-- With a non-baseline direction in the table and every non-baseline index a
channel of the volume, the IDWI block produces the image of the geometric
means. -/
theorem idwiImage_of_nonBaseline (X : Ext) (grads : List Vec3) (dwi : VectorImage)
    (h : ∃ g ∈ grads, isBaseline g = false)
    (hch : ∀ v ∈ dwi, ∀ i ∈ nonBaselineIndices grads, i < v.length) :
    idwiImage X grads dwi = some (dwi.map (geometricMean X grads)) := by
  unfold idwiImage
  rw [idwiImageOver_eq X _ dwi (channels_present grads dwi hch _ (fun _ hc => hc)),
    if_neg (nonBaselineChannels_ne_nil grads h)]
  congr 1
  apply List.map_congr_left
  intro v _
  exact channelMean_indexed X grads v

theorem foldl_add_exact (X : Ext) (hadd : ∀ a b : ℚ, X.add a b = a + b) (t : Nat → ℚ)
    (idxs : List Nat) :
    ∀ acc : ℚ, idxs.foldl (fun acc j => X.add (t j) acc) acc = acc + (idxs.map t).sum := by
  induction idxs with
  | nil =>
    intro acc
    simp
  | cons j rest ih =>
    intro acc
    rw [List.foldl_cons, ih, hadd, List.map_cons, List.sum_cons]
    ring

/-- With an exact addition the accumulated value is the sum of the logarithms. -/
theorem logSum_exact (X : Ext) (hadd : ∀ a b : ℚ, X.add a b = a + b) (v : List ℚ)
    (idxs : List Nat) :
    logSum X v idxs = (idxs.map (fun i => X.log (v.getD i 0))).sum := by
  cases idxs with
  | nil => rfl
  | cons i rest =>
    show rest.foldl (fun acc j => X.add (X.log (v.getD j 0)) acc) (X.log (v.getD i 0)) = _
    rw [foldl_add_exact X hadd (fun j => X.log (v.getD j 0)) rest, List.map_cons, List.sum_cons]

/-- C10 (amended): for a gradient table with a non-baseline direction all of
whose non-baseline indices are channels of the volume, the IDWI image holds at every
voxel `exp(s / n)`, computed with the operations of the image type, where `s` is
the sum of `log S_i` accumulated in increasing order over exactly the indices
`i` of the table whose direction has a non-zero component and `n` is their
number.  When the addition is exact, `s` is the sum of these logarithms in any
order, and the image is the same for every order in which the channels are
visited. -/
theorem idwi_geometric_mean (X : Ext) (grads : List Vec3) (dwi : VectorImage)
    (h : ∃ g ∈ grads, isBaseline g = false)
    (hch : ∀ v ∈ dwi, ∀ i ∈ nonBaselineIndices grads, i < v.length) :
    idwiImage X grads dwi = some (dwi.map (fun v =>
      X.exp (X.div (logSum X v (nonBaselineIndices grads))
        ((nonBaselineIndices grads).length : ℚ)))) ∧
    (∀ i, i ∈ nonBaselineIndices grads ↔
      ∃ g, grads[i]? = some g ∧ (g 0 ≠ 0 ∨ g 1 ≠ 0 ∨ g 2 ≠ 0)) ∧
    (nonBaselineIndices grads).Pairwise (fun a b => a < b) ∧
    ((∀ a b : ℚ, X.add a b = a + b) →
      (∀ v : List ℚ, logSum X v (nonBaselineIndices grads) =
        ((nonBaselineIndices grads).map (fun i => X.log (v.getD i 0))).sum) ∧
      ∀ channels : List (Nat × Vec3), channels.Perm (indexed grads 0) →
        idwiImageOver X channels dwi = idwiImage X grads dwi) := by
  have hne := nonBaselineChannels_ne_nil grads h
  have hsorted : (nonBaselineIndices grads).Pairwise (fun a b => a < b) := by
    unfold nonBaselineIndices
    exact List.Pairwise.filter _ (List.pairwise_lt_range _)
  refine ⟨idwiImage_of_nonBaseline X grads dwi h hch, mem_nonBaselineIndices grads, hsorted, ?_⟩
  intro hadd
  refine ⟨fun v => logSum_exact X hadd v _, ?_⟩
  intro channels hperm
  have hp : (nonBaselineChannels channels).Perm (nonBaselineChannels (indexed grads 0)) :=
    hperm.filter _
  have hne2 : nonBaselineChannels channels ≠ [] := by
    intro hnil
    rw [hnil] at hp
    exact hne hp.symm.eq_nil
  unfold idwiImage
  rw [idwiImageOver_eq X channels dwi
      (channels_present grads dwi hch channels (fun ch hc => hp.subset hc)),
    idwiImageOver_eq X _ dwi (channels_present grads dwi hch _ (fun _ hc => hc)),
    if_neg hne2, if_neg hne]
  congr 1
  apply List.map_congr_left
  intro v _
  unfold channelMean
  rw [logSum_exact X hadd, logSum_exact X hadd, List.map_map, List.map_map,
    (hp.map _).sum_eq, hp.length_eq]

/-- C10 (amended), at a sample input with exact sums: one baseline and two
sensitised channels, also visited in the reverse order. -/
theorem idwi_geometric_mean_witness :
    idwiImage sampleExt [![0, 0, 0], ![1, 0, 0], ![0, 1, 0]] [[1000, 600, 606]] = some [603] ∧
    idwiImage sampleExt [![0, 0, 0], ![1, 0, 0], ![0, 1, 0]] [[1000, 600, 606]] =
      some ([[1000, 600, 606]].map (fun v =>
        sampleExt.exp (sampleExt.div
          (logSum sampleExt v (nonBaselineIndices [![0, 0, 0], ![1, 0, 0], ![0, 1, 0]]))
          ((nonBaselineIndices [![0, 0, 0], ![1, 0, 0], ![0, 1, 0]]).length : ℚ)))) ∧
    idwiImageOver sampleExt [(1, ![1, 0, 0]), (0, ![0, 0, 0]), (2, ![0, 1, 0])]
        [[1000, 600, 606]] =
      idwiImage sampleExt [![0, 0, 0], ![1, 0, 0], ![0, 1, 0]] [[1000, 600, 606]] :=
  ⟨by decide!,
   (idwi_geometric_mean sampleExt [![0, 0, 0], ![1, 0, 0], ![0, 1, 0]] [[1000, 600, 606]]
     ⟨![1, 0, 0], by simp, by decide!⟩ (by decide)).1,
   ((idwi_geometric_mean sampleExt [![0, 0, 0], ![1, 0, 0], ![0, 1, 0]] [[1000, 600, 606]]
     ⟨![1, 0, 0], by simp, by decide!⟩ (by decide)).2.2.2 (fun _ _ => rfl)).2 _
     (List.Perm.swap _ _ _)⟩

/-- C10 (as stated, refuted): a table whose sensitised index 1 is no channel of
the volume.  The first log filter throws, the handler leaves `idwiImage` null
and the run ends abnormally at line 599, without an IDWI value.  Moreover, in
`double` arithmetic the channel visited first matters: over the channels 2, 3
and 11 the value is 4.04124002062219 when the loop starts with the channel 2
and 4.041240020622191 when it starts with the channel 11, as it does on the
volume that stores the same three channels with the last one first. -/
theorem idwi_not_geometric_mean :
    (∃ g ∈ ([![0, 0, 0], ![1, 0, 0]] : List Vec3), isBaseline g = false) ∧
    idwiImage sampleExt [![0, 0, 0], ![1, 0, 0]] [[1000]] = none ∧
    (main sampleExt (sampleWorldOf shortVolume) idwiOptions).exit = ExitCode.crash ∧
    List.Perm [(0, ![0, 0, 0]), (3, ![0, 0, 1]), (1, ![1, 0, 0]), (2, ![0, 1, 0])]
      (indexed threeDirectionTable 0) ∧
    idwiImageOver roundedExt (indexed threeDirectionTable 0) [[1000, 2, 3, 11]] =
      some [568753970343401 / 140737488355328] ∧
    idwiImageOver roundedExt
      [(0, ![0, 0, 0]), (3, ![0, 0, 1]), (1, ![1, 0, 0]), (2, ![0, 1, 0])] [[1000, 2, 3, 11]] =
      some [4550031762747209 / 1125899906842624] ∧
    idwiImage roundedExt threeDirectionTable [[1000, 2, 3, 11]] =
      some [568753970343401 / 140737488355328] ∧
    idwiImage roundedExt [![0, 0, 0], ![0, 0, 1], ![1, 0, 0], ![0, 1, 0]] [[1000, 11, 2, 3]] =
      some [4550031762747209 / 1125899906842624] :=
  ⟨⟨![1, 0, 0], by simp, by decide!⟩, by decide!, by decide!,
   List.Perm.cons _ ((List.Perm.swap _ _ _).trans (List.Perm.cons _ (List.Perm.swap _ _ _))),
   by decide!, by decide!, by decide!, by decide!⟩

theorem count_threshold_mask (vm : VariablesMap) : vm.count "threshold-mask" = 0 := by
  simp [VariablesMap.count, VariablesMap.asString]

/-- The threshold-mask block (lines 486-525) is never entered. -/
theorem thresholdMaskStage_eq (X : Ext) (W : World) (vm : VariablesMap) (grads : List Vec3)
    (dwi : VectorImage) (thr : ℚ) : thresholdMaskStage X W vm grads dwi thr = some [] := by
  unfold thresholdMaskStage
  rw [count_threshold_mask]
  rfl

/-- The processing stage without the threshold-mask block. -/
theorem processVolume_eq (X : Ext) (W : World) (vm : VariablesMap) (vol : DWIVolume)
    (h : Header) (dwi : VectorImage) (step sigma : ℚ) (done : List Event) :
    processVolume X W vm vol h dwi step sigma done =
      match idwiStage X W vm h.gradientContainer dwi with
      | none => ⟨.crash, done ++ (computeThreshold X vm vol.image).2⟩
      | some e2 =>
        writeTensors W vm
          (estimateTensors X vm h.gradientContainer dwi h.b0
            (computeThreshold X vm vol.image).1 step sigma).1 h.dict
          (done ++ (computeThreshold X vm vol.image).2 ++ e2 ++
            (estimateTensors X vm h.gradientContainer dwi h.b0
              (computeThreshold X vm vol.image).1 step sigma).2) := by
  unfold processVolume
  dsimp only
  rw [thresholdMaskStage_eq]
  simp only [List.append_nil]

/-- Without a help request, `main` either returns failure from its option or
input stages or enters the processing stage. -/
theorem main_cases_nohelp (X : Ext) (W : World) (vm : VariablesMap)
    (hhelp : vm.count "help" = 0) :
    (main X W vm).exit = .EXIT_FAILURE ∨
    ∃ vol step sigma dwi done,
      W.readDWI ((vm.asString "dwi-image").getD "") = some vol ∧
      maskedVolume W vm vol.image = some dwi ∧
      main X W vm = processVolume X W vm vol (readHeader X vol) dwi step sigma done := by
  unfold main
  split_ifs with h0 h1
  · exact absurd hhelp h1
  · exact Or.inl rfl
  · cases hs : readStep vm with
    | none => exact Or.inl rfl
    | some step =>
      cases hg : readSigma vm with
      | none => exact Or.inl rfl
      | some sigma =>
        cases hr : W.readDWI ((vm.asString "dwi-image").getD "") with
        | none =>
          left
          simp only [hr]
        | some vol =>
          simp only [hr]
          have hd : ∀ e ∈ [Event.readDWI ((vm.asString "dwi-image").getD "")],
              e.isInput = true := by
            intro e he
            simp only [List.mem_singleton] at he
            subst he
            rfl
          rcases processHeader_cases X W vm vol step sigma _ hd with h | h
          · exact Or.inl h.1
          · obtain ⟨dwi, done2, _, hm, _, heq⟩ := h
            exact Or.inr ⟨vol, step, sigma, dwi, done2, rfl, hm, heq⟩

theorem brainMaskStage_none (W : World) (vm : VariablesMap) (dwi : VectorImage)
    (hreq : vm.count "brain-mask" ≠ 0)
    (hfail : maskReaderUpdate W ((vm.asString "brain-mask").getD "") = none) :
    brainMaskStage W vm dwi = none := by
  unfold brainMaskStage
  rw [if_pos hreq, hfail]

/-- The reader of the bad-region block has no file name, so the block fails
whenever it is entered. -/
theorem badRegionMaskStage_none (W : World) (vm : VariablesMap) (dwi : VectorImage)
    (hreq : vm.count "bad-region-mask" ≠ 0) : badRegionMaskStage W vm dwi = none := by
  unfold badRegionMaskStage
  rw [if_pos hreq]
  rfl

theorem exit_writeTensors (W : World) (vm : VariablesMap) (t : TensorImage)
    (d : MetaDataDictionary) (done : List Event) :
    (writeTensors W vm t d done).exit =
      if W.writable ((vm.asString "tensor-output").getD "") then .EXIT_SUCCESS
      else .EXIT_FAILURE := by
  unfold writeTensors
  dsimp only
  split_ifs <;> rfl

theorem idwiStage_events {X : Ext} {W : World} {vm : VariablesMap} {grads : List Vec3}
    {dwi : VectorImage} {ev : List Event} (h : idwiStage X W vm grads dwi = some ev) :
    ev = [] ∨ ∃ img, idwiImage X grads dwi = some img ∧
      ev = [.writeIDWI ((vm.asString "idwi").getD "") img
        (W.writable ((vm.asString "idwi").getD ""))] := by
  unfold idwiStage at h
  split_ifs at h
  · split at h
    · cases h
    · rename_i img himg
      simp only [Option.some.injEq] at h
      exact Or.inr ⟨img, himg, h.symm⟩
  · simp only [Option.some.injEq] at h
    exact Or.inl h.symm

/-- C12 (as stated, refuted): the IDWI image cannot be written, the failure is
recorded, and the run still returns success. -/
theorem idwi_write_failure_not_fatal :
    idwiUnwritableWorld.writable "idwi.nrrd" = false ∧
    Event.writeIDWI "idwi.nrrd" [606, 5] false ∈
      (main sampleExt idwiUnwritableWorld idwiOptions).events ∧
    (main sampleExt idwiUnwritableWorld idwiOptions).exit = .EXIT_SUCCESS := by
  refine ⟨by decide, by decide!, by decide!⟩

/-- C12 (amended): without a help request, a failure to read the DWI volume, to
read the brain mask or the bad-region mask, or to write the tensor volume ends
the run without success (with `EXIT_FAILURE` in the three read cases); a failure
to write the IDWI image is only reported: the run then returns success exactly
when the tensor volume can be written. -/
theorem io_failures (X : Ext) (W : World) (vm : VariablesMap)
    (hhelp : vm.count "help" = 0) :
    (W.readDWI ((vm.asString "dwi-image").getD "") = none →
      (main X W vm).exit = .EXIT_FAILURE) ∧
    (vm.count "brain-mask" ≠ 0 →
      maskReaderUpdate W ((vm.asString "brain-mask").getD "") = none →
      (main X W vm).exit = .EXIT_FAILURE) ∧
    (vm.count "bad-region-mask" ≠ 0 → maskReaderUpdate W "" = none →
      (main X W vm).exit = .EXIT_FAILURE) ∧
    (W.writable ((vm.asString "tensor-output").getD "") = false →
      (main X W vm).exit ≠ .EXIT_SUCCESS) ∧
    (∀ f img, Event.writeIDWI f img false ∈ (main X W vm).events →
      ((main X W vm).exit = .EXIT_SUCCESS ↔
        W.writable ((vm.asString "tensor-output").getD "") = true)) := by
  refine ⟨?_, ?_, ?_, ?_, ?_⟩
  · intro hr
    rcases main_cases_nohelp X W vm hhelp with h | ⟨vol, _, _, _, _, hr2, _, _⟩
    · exact h
    · rw [hr] at hr2
      cases hr2
  · intro hreq hfail
    rcases main_cases_nohelp X W vm hhelp with h | ⟨vol, _, _, dwi, _, _, hm, _⟩
    · exact h
    · unfold maskedVolume at hm
      rw [brainMaskStage_none W vm vol.image hreq hfail] at hm
      cases hm
  · intro hreq _
    rcases main_cases_nohelp X W vm hhelp with h | ⟨vol, _, _, dwi, _, _, hm, _⟩
    · exact h
    · unfold maskedVolume at hm
      cases h1 : brainMaskStage W vm vol.image with
      | none =>
        rw [h1] at hm
        cases hm
      | some m1 =>
        rw [h1] at hm
        simp only [badRegionMaskStage_none W vm m1.1 hreq] at hm
        cases hm
  · intro hw
    rcases main_cases_nohelp X W vm hhelp with h | ⟨vol, step, sigma, dwi, done, _, _, heq⟩
    · rw [h]
      decide
    · rw [heq, processVolume_eq]
      cases idwiStage X W vm (readHeader X vol).gradientContainer dwi with
      | none =>
        simp only
        decide
      | some e2 =>
        simp only
        rw [exit_writeTensors, hw]
        decide
  · intro f img hmem
    rcases main_cases X W vm with h | ⟨vol, step, sigma, dwi, done, _, _, _, _, _, hd, heq⟩
    · have := h.2 _ hmem
      simp [Event.isInput] at this
    · rw [heq, processVolume_eq] at hmem ⊢
      cases hidwi : idwiStage X W vm (readHeader X vol).gradientContainer dwi with
      | none =>
        rw [hidwi] at hmem
        simp only [List.mem_append] at hmem
        rcases hmem with hmem | hmem
        · have := hd _ hmem
          simp [Event.isInput] at this
        · unfold computeThreshold at hmem
          split_ifs at hmem <;> simp at hmem
      | some e2 =>
        simp only
        rw [exit_writeTensors]
        cases W.writable ((vm.asString "tensor-output").getD "") <;> simp

/-- C12 (amended), at sample inputs: a missing DWI file ends the run with
failure; with an unwritable IDWI file the run succeeds as the tensor file is
writable. -/
theorem io_failures_witness :
    (main sampleExt sampleWorld
      { sampleOptions .LinearEstimate none with dwiImage := some "missing.nrrd" }).exit =
      .EXIT_FAILURE ∧
    ((main sampleExt idwiUnwritableWorld idwiOptions).exit = .EXIT_SUCCESS ↔
      idwiUnwritableWorld.writable ((idwiOptions.asString "tensor-output").getD "") = true) :=
  ⟨(io_failures sampleExt sampleWorld
      { sampleOptions .LinearEstimate none with dwiImage := some "missing.nrrd" }
      (by decide)).1 rfl,
   (io_failures sampleExt idwiUnwritableWorld idwiOptions (by decide)).2.2.2.2
      "idwi.nrrd" [606, 5] (by decide!)⟩

/-- C14 (the code at a failing input): `bad.nrrd` is a readable mask on the grid
of the volume that excludes no voxel, yet with `-B bad.nrrd` the run returns
failure in the mask block, having only read the volume: the reader of that
block is updated without a file name. -/
theorem bad_region_mask_fails :
    maskWorld.readMask "bad.nrrd" = some [0, 0] ∧
    VectorMaskNegatedImageFilter sampleVolume.image [0, 0] = some sampleVolume.image ∧
    maskReaderUpdate maskWorld "bad.nrrd" = some [0, 0] ∧
    badRegionMaskStage maskWorld badRegionOptions sampleVolume.image = none ∧
    main sampleExt maskWorld badRegionOptions = ⟨.EXIT_FAILURE, [.readDWI "dwi.nrrd"]⟩ := by
  refine ⟨by decide, by decide!, by decide, by decide, by decide!⟩

/-! ### The threshold mask -/

theorem count_declared (vm : VariablesMap) (name : String) (h : vm.count name ≠ 0) :
    name ∈ declaredOptions := by
  unfold VariablesMap.count VariablesMap.asString at h
  unfold declaredOptions
  simp only [List.mem_cons, List.mem_singleton]
  by_contra hcon
  simp only [not_or] at hcon
  obtain ⟨h1, h2, h3, h4, h5, h6, h7, h8, h9, h10, h11, h12, _⟩ := hcon
  simp [h1, h2, h3, h4, h5, h6, h7, h8, h9, h10, h11, h12] at h

theorem no_thresholdMask_event (X : Ext) (W : World) (vm : VariablesMap) :
    (main X W vm).events.any Event.isThresholdMask = false := by
  rw [List.any_eq_false]
  intro e he
  rcases main_cases X W vm with h | ⟨vol, step, sigma, dwi, done, _, _, _, _, _, hd, heq⟩
  · have := h.2 e he
    cases e <;> simp_all [Event.isInput, Event.isThresholdMask]
  · rw [heq, processVolume_eq] at he
    have hthr := computeThreshold_isSide X vm vol.image
    have hnot : ∀ e, e ∈ done ++ (computeThreshold X vm vol.image).2 →
        ¬ e.isThresholdMask = true := by
      intro e he
      rw [List.mem_append] at he
      rcases he with he | he
      · have := hd e he
        cases e <;> simp_all [Event.isInput, Event.isThresholdMask]
      · unfold computeThreshold at he
        split_ifs at he
        · simp at he
        · simp only [List.mem_singleton] at he
          subst he
          simp [Event.isThresholdMask]
    cases hidwi : idwiStage X W vm (readHeader X vol).gradientContainer dwi with
    | none =>
      rw [hidwi] at he
      exact hnot e he
    | some e2 =>
      rw [hidwi] at he
      simp only at he
      have hest := estimateTensors_events X vm (readHeader X vol).gradientContainer dwi
        (readHeader X vol).b0 (computeThreshold X vm vol.image).1 step sigma
      have hin : e ∈ done ++ (computeThreshold X vm vol.image).2 ∨ e ∈ e2 ∨
          e ∈ (estimateTensors X vm (readHeader X vol).gradientContainer dwi
            (readHeader X vol).b0 (computeThreshold X vm vol.image).1 step sigma).2 ∨
          ∃ f t d, e = .writeTensor f t d := by
        unfold writeTensors at he
        dsimp only at he
        split_ifs at he
        · simp only [List.mem_append, List.mem_singleton] at he
          rcases he with (((he | he) | he) | he) | he
          · exact Or.inl (List.mem_append.mpr (Or.inl he))
          · exact Or.inl (List.mem_append.mpr (Or.inr he))
          · exact Or.inr (Or.inl he)
          · exact Or.inr (Or.inr (Or.inl he))
          · exact Or.inr (Or.inr (Or.inr ⟨_, _, _, he⟩))
        · simp only [List.mem_append] at he
          rcases he with ((he | he) | he) | he
          · exact Or.inl (List.mem_append.mpr (Or.inl he))
          · exact Or.inl (List.mem_append.mpr (Or.inr he))
          · exact Or.inr (Or.inl he)
          · exact Or.inr (Or.inr (Or.inl he))
      rcases hin with hin | hin | hin | ⟨f, t, d, hin⟩
      · exact hnot e hin
      · rcases idwiStage_events hidwi with hnil | ⟨img, _, hev⟩
        · rw [hnil] at hin
          cases hin
        · rw [hev, List.mem_singleton] at hin
          subst hin
          simp [Event.isThresholdMask]
      · obtain ⟨k, s, hks⟩ := hest e hin
        subst hks
        simp [Event.isThresholdMask]
      · subst hin
        simp [Event.isThresholdMask]

/-- C15 (the code on every input): `threshold-mask` is not among the declared
options, the option lookup rejects it as unknown, no options map counts it,
and no run of `main` contains an event of the threshold-mask block. -/
theorem threshold_mask_unreachable :
    "threshold-mask" ∉ declaredOptions ∧
    findOption "threshold-mask" = .error .unknown_option ∧
    findOption "threshold" = .ok "threshold" ∧
    (∀ vm : VariablesMap, vm.count "threshold-mask" = 0) ∧
    (∀ (X : Ext) (W : World) (vm : VariablesMap),
      (main X W vm).events.any Event.isThresholdMask = false) :=
  ⟨by decide, by decide, by decide, count_threshold_mask, no_thresholdMask_event⟩

/-! ### Initial tensors -/

/-- C16 (the code at a failing input): with `-m nls` the nonlinear filter runs
with the step but without an initial tensor, for the sample run and for every
input of the dispatch; with `-m ml` the filter is given the output of the
linear filter as initial tensor, the step and sigma. -/
theorem nonlinear_without_initial_tensor :
    Event.estimate .NonlinearEstimate
        { gradients := (readHeader sampleExt sampleVolume).gradientContainer,
          image := sampleVolume.image,
          bValue := 1000, threshold := 900, step := some (1 / 100000000), sigma := none,
          initialTensor := none, numberOfIterations := none, numberOfThreads := some 1 } ∈
      (main sampleExt sampleWorld (sampleOptions .NonlinearEstimate none)).events ∧
    (∀ (vm : VariablesMap) (grads : List Vec3) (dwi : VectorImage) (b0 thr step sigma : ℚ)
        (lls : TensorImage),
      branchSettings { vm with method := .NonlinearEstimate } grads dwi b0 thr step sigma lls =
        some { gradients := grads, image := dwi, bValue := b0, threshold := thr,
               step := some step, sigma := none, initialTensor := none,
               numberOfIterations := none, numberOfThreads := some 1 }) ∧
    (∀ (vm : VariablesMap) (grads : List Vec3) (dwi : VectorImage) (b0 thr step sigma : ℚ)
        (lls : TensorImage),
      branchSettings { vm with method := .MaximumLikelihoodEstimate } grads dwi b0 thr step
          sigma lls =
        some { gradients := grads, image := dwi, bValue := b0, threshold := thr,
               step := some step, sigma := some sigma, initialTensor := some lls,
               numberOfIterations := none, numberOfThreads := some 1 }) :=
  ⟨by decide!, fun _ _ _ _ _ _ _ _ => rfl, fun _ _ _ _ _ _ _ _ => rfl⟩

/-! ### Metadata propagation -/

theorem replaceEntry_of_not_HasKey (dict : MetaDataDictionary) (key : String) (v : MetaValue)
    (h : HasKey dict key = false) : replaceEntry dict key v = dict := by
  unfold replaceEntry
  conv_rhs => rw [← List.map_id dict]
  apply List.map_congr_left
  intro e he
  have hne : ¬ e.1 = key := by
    intro heq
    unfold HasKey at h
    rw [List.any_eq_false] at h
    exact h e he (by simp [heq])
  rw [if_neg hne]
  rfl

theorem HasKey_replaceEntry (dict : MetaDataDictionary) (key k : String) (v : MetaValue) :
    HasKey (replaceEntry dict key v) k = HasKey dict k := by
  unfold HasKey replaceEntry
  rw [List.any_map]
  congr 1
  funext e
  simp only [Function.comp_apply]
  split_ifs <;> rfl

theorem findEntry_replaceEntry_self (dict : MetaDataDictionary) (key : String) (v : MetaValue) :
    findEntry (replaceEntry dict key v) key = if HasKey dict key then some v else none := by
  induction dict with
  | nil => rfl
  | cons e rest ih =>
    obtain ⟨k0, w⟩ := e
    show findEntry ((if k0 = key then (k0, v) else (k0, w)) :: replaceEntry rest key v) key = _
    by_cases h0 : k0 = key
    · rw [if_pos h0]
      simp [findEntry, HasKey, h0]
    · rw [if_neg h0]
      simp only [findEntry, if_neg h0]
      rw [ih]
      have hb : (k0 == key) = false := by simpa using h0
      unfold HasKey
      simp only [List.any_cons, hb, Bool.false_or]

/-- The dictionary after lines 272-323, as two overwrites of the input
dictionary. -/
theorem rewriteDict_eq (vol : DWIVolume) :
    rewriteDict vol =
      replaceEntry
        (replaceEntry vol.dict NRRD_MEASUREMENT_KEY (.frame (fun j i => vol.direction i j)))
        "modality" (.str "DTMRI") := by
  have h1 : (if HasKey vol.dict NRRD_MEASUREMENT_KEY then
        EncapsulateMetaData vol.dict NRRD_MEASUREMENT_KEY
          (.frame (fun j i => vol.direction i j))
      else vol.dict) =
      replaceEntry vol.dict NRRD_MEASUREMENT_KEY (.frame (fun j i => vol.direction i j)) := by
    cases hk : HasKey vol.dict NRRD_MEASUREMENT_KEY with
    | true =>
      rw [if_pos rfl]
      exact EncapsulateMetaData_of_HasKey _ hk
    | false =>
      rw [if_neg (by decide)]
      exact (replaceEntry_of_not_HasKey _ _ _ hk).symm
  unfold rewriteDict
  dsimp only
  rw [h1]
  cases hk : HasKey (replaceEntry vol.dict NRRD_MEASUREMENT_KEY
      (.frame (fun j i => vol.direction i j))) "modality" with
  | true =>
    rw [if_pos rfl]
    exact EncapsulateMetaData_of_HasKey _ hk
  | false =>
    rw [if_neg (by decide)]
    exact (replaceEntry_of_not_HasKey _ _ _ hk).symm

/-- C13: the dictionary written with the tensor volume is the dictionary of the
input volume in which the value of the measurement-frame entry, when there is
one, is the frame `frame[j][i] = D(i,j)` of the direction matrix and the value
of the `modality` entry, when there is one, is `"DTMRI"`; the keys are the same
and every other entry is unchanged. -/
theorem metadata_propagation (X : Ext) (W : World) (vm : VariablesMap) (f : String)
    (t : TensorImage) (d : MetaDataDictionary)
    (h : Event.writeTensor f t d ∈ (main X W vm).events) :
    ∃ vol, W.readDWI ((vm.asString "dwi-image").getD "") = some vol ∧
      d = vol.dict.map (fun e =>
        if e.1 = NRRD_MEASUREMENT_KEY then (e.1, MetaValue.frame (fun j i => vol.direction i j))
        else if e.1 = "modality" then (e.1, MetaValue.str "DTMRI")
        else e) ∧
      GetKeys d = GetKeys vol.dict ∧
      (∀ k, k ≠ NRRD_MEASUREMENT_KEY → k ≠ "modality" → findEntry d k = findEntry vol.dict k) ∧
      findEntry d NRRD_MEASUREMENT_KEY =
        (if HasKey vol.dict NRRD_MEASUREMENT_KEY then
          some (.frame (fun j i => vol.direction i j)) else none) ∧
      findEntry d "modality" =
        (if HasKey vol.dict "modality" then some (.str "DTMRI") else none) := by
  obtain ⟨vol, _, _, _, hr, _, _, _, _, _, hd, _, _⟩ := writeTensor_mem_main h
  have hdict : d = rewriteDict vol := hd
  refine ⟨vol, hr, ?_, ?_, ?_, ?_, ?_⟩
  · rw [hdict, rewriteDict_eq]
    unfold replaceEntry
    rw [List.map_map]
    apply List.map_congr_left
    intro e _
    simp only [Function.comp_apply]
    by_cases h1 : e.1 = NRRD_MEASUREMENT_KEY
    · have h2 : ¬ e.1 = "modality" := by
        rw [h1]
        decide
      simp only [if_pos h1, if_neg h2]
    · simp only [if_neg h1]
  · rw [hdict]
    exact GetKeys_rewriteDict vol
  · intro k h1 h2
    rw [hdict]
    exact findEntry_rewriteDict vol k h1 h2
  · rw [hdict, rewriteDict_eq,
      findEntry_replaceEntry_ne _ _ _ _ (by decide : NRRD_MEASUREMENT_KEY ≠ "modality"),
      findEntry_replaceEntry_self]
  · rw [hdict, rewriteDict_eq, findEntry_replaceEntry_self, HasKey_replaceEntry]

/-- C13, at a sample input: the run on the sample volume writes its dictionary
with the modality set to `"DTMRI"` and no measurement frame added. -/
theorem metadata_propagation_witness :
    Event.writeTensor "out.nrrd" [[1000, 900, 0]] (rewriteDict sampleVolume) ∈
      (main sampleExt sampleWorld (sampleOptions .LinearEstimate none)).events ∧
    findEntry (rewriteDict sampleVolume) "modality" = some (.str "DTMRI") ∧
    findEntry (rewriteDict sampleVolume) NRRD_MEASUREMENT_KEY = none ∧
    GetKeys (rewriteDict sampleVolume) = GetKeys sampleVolume.dict := by
  have hm : Event.writeTensor "out.nrrd" [[1000, 900, 0]] (rewriteDict sampleVolume) ∈
      (main sampleExt sampleWorld (sampleOptions .LinearEstimate none)).events := by decide!
  obtain ⟨vol, hr, _, hkeys, _, hframe, hmod⟩ :=
    metadata_propagation sampleExt sampleWorld (sampleOptions .LinearEstimate none)
      "out.nrrd" [[1000, 900, 0]] (rewriteDict sampleVolume) hm
  have hvol : sampleVolume = vol := Option.some.inj hr
  subst hvol
  refine ⟨hm, ?_, ?_, hkeys⟩
  · rw [hmod]
    decide
  · rw [hframe]
    decide

end DTIEstim

/-! ### scalartransform.cxx: the interpolation validator -/

namespace ScalarTransform

/-- C17: the validator accepts a single string iff it is `"nearestneighbor"`,
`"linear"` or `"cubic"`, mapping them to NearestNeighbor, Linear and Cubic, and
rejects every other string with the validation error; for every value the
validator produces `createInterpolater` returns an interpolator. -/
theorem interpolation_validator (s : String) :
    ((∃ t, validate none [s] = .ok t) ↔ s ∈ ["nearestneighbor", "linear", "cubic"]) ∧
    (validate none [s] = .ok .NearestNeighbor ↔ s = "nearestneighbor") ∧
    (validate none [s] = .ok .Linear ↔ s = "linear") ∧
    (validate none [s] = .ok .Cubic ↔ s = "cubic") ∧
    (s ∉ ["nearestneighbor", "linear", "cubic"] ↔
      validate none [s] = .error (.validation_error interpolationTypeMessage)) ∧
    (∀ t, validate none [s] = .ok t → ∃ i, createInterpolater t = .ok i) ∧
    createInterpolater .NearestNeighbor = .ok .NearestNeighborInterpolateImageFunction ∧
    createInterpolater .Linear = .ok .LinearInterpolateImageFunction ∧
    createInterpolater .Cubic = .ok .BSplineInterpolateImageFunction := by
  have hcreate : ∀ t, validate none [s] = .ok t → ∃ i, createInterpolater t = .ok i := by
    intro t ht
    simp only [validate, validateString] at ht
    split_ifs at ht
    all_goals cases ht
    all_goals exact ⟨_, rfl⟩
  refine ⟨?_, ?_, ?_, ?_, ?_, hcreate, rfl, rfl, rfl⟩
  all_goals simp only [validate, validateString]
  all_goals
    by_cases h1 : s = "nearestneighbor"
    · subst h1
      first
        | decide
        | exact ⟨fun _ => by decide, fun _ => ⟨.NearestNeighbor, by decide⟩⟩
    by_cases h2 : s = "linear"
    · subst h2
      first
        | decide
        | exact ⟨fun _ => by decide, fun _ => ⟨.Linear, by decide⟩⟩
    by_cases h3 : s = "cubic"
    · subst h3
      first
        | decide
        | exact ⟨fun _ => by decide, fun _ => ⟨.Cubic, by decide⟩⟩
    simp [h1, h2, h3]

/-- C17, at a sample input: `"cubic"` is accepted and yields an interpolator. -/
theorem interpolation_validator_witness :
    validate none ["cubic"] = .ok .Cubic ∧ ∃ i, createInterpolater .Cubic = .ok i :=
  ⟨by decide, (interpolation_validator "cubic").2.2.2.2.2.1 .Cubic (by decide)⟩

end ScalarTransform

/-! ### fiberstats.cxx: sample collection and statistics -/

namespace FiberStats

theorem count_pushBack {D : Type} (m : SampleMap D) (n : String) (x : D) (name : String) :
    count (pushBack m n x) name = count m name := by
  unfold count pushBack
  rw [List.any_map]
  have hf : ((fun e : String × List D => e.1 == name) ∘
      fun e => if e.1 = n then (e.1, e.2 ++ [x]) else e) = fun e => e.1 == name := by
    funext e
    simp only [Function.comp_apply]
    split_ifs <;> rfl
  rw [hf]

theorem count_fieldStep {D : Type} (m : SampleMap D) (fl : String × D) (name : String) :
    count (fieldStep m fl) name = count m name := by
  unfold fieldStep
  split_ifs
  · exact count_pushBack m fl.1 fl.2 name
  · rfl

theorem count_cons_ne {D : Type} (k : String) (xs : List D) (rest : SampleMap D) (name : String)
    (h : ¬ k = name) : count ((k, xs) :: rest) name = count rest name := by
  have hb : (k == name) = false := by simpa using h
  unfold count
  simp only [List.any_cons, hb, Bool.false_or]

theorem count_cons_eq {D : Type} (k : String) (xs : List D) (rest : SampleMap D) :
    count ((k, xs) :: rest) k = 1 := by
  unfold count
  simp

theorem samples_pushBack {D : Type} (m : SampleMap D) (n : String) (x : D) (name : String) :
    samples (pushBack m n x) name =
      if n = name ∧ count m name ≠ 0 then samples m name ++ [x] else samples m name := by
  induction m with
  | nil =>
    have : ¬ (n = name ∧ count ([] : SampleMap D) name ≠ 0) := fun h => h.2 rfl
    rw [if_neg this]
    rfl
  | cons e rest ih =>
    obtain ⟨k, xs⟩ := e
    show samples ((if k = n then (k, xs ++ [x]) else (k, xs)) :: pushBack rest n x) name = _
    by_cases hk : k = name
    · subst hk
      by_cases hn : k = n
      · subst hn
        have hc : k = k ∧ count ((k, xs) :: rest) k ≠ 0 := by
          rw [count_cons_eq]
          exact ⟨rfl, by decide⟩
        rw [if_pos rfl, if_pos hc]
        simp only [samples, if_true]
      · have hc : ¬ (n = k ∧ count ((k, xs) :: rest) k ≠ 0) := fun h => hn h.1.symm
        rw [if_neg hn, if_neg hc]
        simp only [samples, if_true]
    · by_cases hn : k = n
      · rw [if_pos hn]
        simp only [samples, if_neg hk]
        rw [ih, count_cons_ne k xs rest name hk]
      · rw [if_neg hn]
        simp only [samples, if_neg hk]
        rw [ih, count_cons_ne k xs rest name hk]

theorem samples_fieldStep {D : Type} (m : SampleMap D) (fl : String × D) (name : String)
    (hk : count m name ≠ 0) :
    samples (fieldStep m fl) name =
      samples m name ++ ([fl].filter (fun fl => decide (fl.1 = name))).map Prod.snd := by
  unfold fieldStep
  by_cases hn : fl.1 = name
  · have hc : count m fl.1 ≠ 0 := by rw [hn]; exact hk
    rw [if_pos hc, samples_pushBack, if_pos ⟨hn, hk⟩]
    simp [hn]
  · split_ifs
    · rw [samples_pushBack, if_neg (fun h => hn h.1)]
      simp [hn]
    · simp [hn]

theorem samples_pointStep {D : Type} (fls : List (String × D)) (name : String) :
    ∀ m : SampleMap D, count m name ≠ 0 →
      samples (fls.foldl fieldStep m) name =
        samples m name ++ (fls.filter (fun fl => decide (fl.1 = name))).map Prod.snd ∧
      count (fls.foldl fieldStep m) name = count m name := by
  induction fls with
  | nil =>
    intro m _
    simp
  | cons fl rest ih =>
    intro m hk
    rw [List.foldl_cons]
    have hk2 : count (fieldStep m fl) name ≠ 0 := by rw [count_fieldStep]; exact hk
    obtain ⟨h1, h2⟩ := ih (fieldStep m fl) hk2
    rw [h1, h2, count_fieldStep, samples_fieldStep m fl name hk]
    refine ⟨?_, rfl⟩
    by_cases hn : fl.1 = name <;> simp [List.filter_cons, hn]

theorem samples_fiberStep {D : Type} (points : List (DTIPoint D)) (name : String) :
    ∀ m : SampleMap D, count m name ≠ 0 →
      samples (points.foldl pointStep m) name =
        samples m name ++ points.flatMap
          (fun p => (p.fields.filter (fun fl => decide (fl.1 = name))).map Prod.snd) ∧
      count (points.foldl pointStep m) name = count m name := by
  induction points with
  | nil =>
    intro m _
    simp
  | cons p rest ih =>
    intro m hk
    rw [List.foldl_cons]
    obtain ⟨h1, h2⟩ := samples_pointStep p.fields name m hk
    have hk2 : count (pointStep m p) name ≠ 0 := by
      unfold pointStep
      rw [h2]
      exact hk
    obtain ⟨h3, h4⟩ := ih (pointStep m p) hk2
    rw [h3, h4]
    unfold pointStep
    rw [h1, h2]
    refine ⟨?_, rfl⟩
    simp [List.flatMap_cons, List.append_assoc]

theorem samples_fibers {D : Type} (fibers : List (Fiber D)) (name : String) :
    ∀ m : SampleMap D, count m name ≠ 0 →
      samples (fibers.foldl fiberStep m) name =
        samples m name ++ fibers.flatten.flatMap
          (fun p => (p.fields.filter (fun fl => decide (fl.1 = name))).map Prod.snd) ∧
      count (fibers.foldl fiberStep m) name = count m name := by
  induction fibers with
  | nil =>
    intro m _
    simp
  | cons fiber rest ih =>
    intro m hk
    rw [List.foldl_cons]
    obtain ⟨h1, h2⟩ := samples_fiberStep fiber name m hk
    have hk2 : count (fiberStep m fiber) name ≠ 0 := by
      unfold fiberStep
      rw [h2]
      exact hk
    obtain ⟨h3, h4⟩ := ih (fiberStep m fiber) hk2
    rw [h3, h4]
    unfold fiberStep
    rw [h1, h2]
    refine ⟨?_, rfl⟩
    simp [List.flatten_cons, List.flatMap_append, List.append_assoc]

theorem keys_fieldStep {D : Type} (m : SampleMap D) (fl : String × D) :
    (fieldStep m fl).map Prod.fst = m.map Prod.fst := by
  unfold fieldStep
  split_ifs
  · unfold pushBack
    rw [List.map_map]
    apply List.map_congr_left
    intro e _
    simp only [Function.comp_apply]
    split_ifs <;> rfl
  · rfl

/-- The loops keep the keys of the map. -/
theorem keys_collect {D : Type} (fibers : List (Fiber D)) :
    (collect fibers).map Prod.fst = ["fa", "fro", "md"] := by
  have hfield : ∀ (fls : List (String × D)) (m : SampleMap D),
      (fls.foldl fieldStep m).map Prod.fst = m.map Prod.fst := by
    intro fls
    induction fls with
    | nil => intro m; rfl
    | cons fl rest ih =>
      intro m
      rw [List.foldl_cons, ih, keys_fieldStep]
  have hpoint : ∀ (ps : List (DTIPoint D)) (m : SampleMap D),
      (ps.foldl pointStep m).map Prod.fst = m.map Prod.fst := by
    intro ps
    induction ps with
    | nil => intro m; rfl
    | cons p rest ih =>
      intro m
      rw [List.foldl_cons, ih]
      exact hfield p.fields m
  have hfiber : ∀ (fs : List (Fiber D)) (m : SampleMap D),
      (fs.foldl fiberStep m).map Prod.fst = m.map Prod.fst := by
    intro fs
    induction fs with
    | nil => intro m; rfl
    | cons f rest ih =>
      intro m
      rw [List.foldl_cons, ih]
      exact hpoint f m
  exact hfiber fibers initialStats

theorem mem_of_count {D : Type} (m : SampleMap D) (name : String) (h : count m name ≠ 0) :
    (name, samples m name) ∈ m := by
  induction m with
  | nil => exact absurd rfl h
  | cons e rest ih =>
    obtain ⟨k, xs⟩ := e
    by_cases hk : k = name
    · subst hk
      simp [samples]
    · rw [count_cons_ne k xs rest name hk] at h
      simp only [samples, if_neg hk]
      exact List.mem_cons_of_mem _ (ih h)

/-- The samples of a measure are the values of the fields of its name. -/
theorem samples_collect {D : Type} (fibers : List (Fiber D)) (name : String)
    (hname : name ∈ ["fa", "md", "fro"]) :
    samples (collect fibers) name = fieldValues fibers name ∧
    count (collect fibers) name ≠ 0 := by
  have hcount : count (initialStats : SampleMap D) name ≠ 0 := by
    simp only [List.mem_cons, List.mem_singleton, List.not_mem_nil, or_false] at hname
    rcases hname with h | h | h <;> subst h <;> simp [count, initialStats]
  have hinit : samples (initialStats : SampleMap D) name = [] := by
    simp only [List.mem_cons, List.mem_singleton, List.not_mem_nil, or_false] at hname
    rcases hname with h | h | h <;> subst h <;> simp [samples, initialStats]
  obtain ⟨hs, hc⟩ := samples_fibers fibers name initialStats hcount
  constructor
  · unfold collect fieldValues
    rw [hs, hinit, List.nil_append]
  · unfold collect
    rw [hc]
    exact hcount

theorem foldl_add_map (g : ℚ → ℚ) (xs : List ℚ) :
    ∀ acc : ℚ, xs.foldl (fun v x => v + g x) acc = acc + (xs.map g).sum := by
  induction xs with
  | nil =>
    intro acc
    simp
  | cons x rest ih =>
    intro acc
    rw [List.foldl_cons, ih, List.map_cons, List.sum_cons]
    ring

theorem sum_map_div (t : ℚ → ℚ) (d : ℚ) (xs : List ℚ) :
    (xs.map (fun x => t x / d)).sum = (xs.map t).sum / d := by
  induction xs with
  | nil => simp
  | cons x rest ih =>
    rw [List.map_cons, List.sum_cons, ih, List.map_cons, List.sum_cons, add_div]

theorem mean_eq (xs : List ℚ) : mean exactArith xs = xs.sum / (xs.length : ℚ) := by
  unfold mean
  have h := foldl_add_map (fun x => x) xs 0
  simp only [List.map_id', zero_add] at h
  show xs.foldl (fun v x => v + x) 0 / (xs.length : ℚ) = _
  rw [h]

theorem variance_eq_sum (xs : List ℚ) :
    variance exactArith xs =
      (xs.map (fun x => ((x - mean exactArith xs) * (x - mean exactArith xs)) /
        (((xs.length + SIZE_MOD - 1) % SIZE_MOD : Nat) : ℚ))).sum := by
  unfold variance
  show xs.foldl (fun var x => var + ((x - mean exactArith xs) * (x - mean exactArith xs)) /
      (((xs.length + SIZE_MOD - 1) % SIZE_MOD : Nat) : ℚ)) 0 = _
  rw [foldl_add_map (fun x => ((x - mean exactArith xs) * (x - mean exactArith xs)) /
      (((xs.length + SIZE_MOD - 1) % SIZE_MOD : Nat) : ℚ)) xs 0, zero_add]

theorem mean_perm {xs ys : List ℚ} (h : xs.Perm ys) :
    mean exactArith xs = mean exactArith ys := by
  rw [mean_eq, mean_eq, h.sum_eq, h.length_eq]

theorem variance_perm {xs ys : List ℚ} (h : xs.Perm ys) :
    variance exactArith xs = variance exactArith ys := by
  rw [variance_eq_sum, variance_eq_sum, mean_perm h, h.length_eq]
  exact (h.map _).sum_eq

/-- In exact arithmetic and for at least two samples the loop of lines 154-161
computes the unbiased sample variance. -/
theorem variance_eq (xs : List ℚ) (h2 : 2 ≤ xs.length) (hsize : xs.length < SIZE_MOD) :
    variance exactArith xs =
      (xs.map (fun x => (x - xs.sum / (xs.length : ℚ)) ^ 2)).sum / ((xs.length : ℚ) - 1) := by
  rw [variance_eq_sum, mean_eq]
  have hmod : (xs.length + SIZE_MOD - 1) % SIZE_MOD = xs.length - 1 := by
    have : xs.length + SIZE_MOD - 1 = (xs.length - 1) + SIZE_MOD := by omega
    rw [this, Nat.add_mod_right]
    exact Nat.mod_eq_of_lt (by omega)
  have hcast : ((xs.length - 1 : Nat) : ℚ) = (xs.length : ℚ) - 1 := by
    rw [Nat.cast_sub (by omega)]
    simp
  have hfun : (fun x : ℚ => (x - xs.sum / (xs.length : ℚ)) * (x - xs.sum / (xs.length : ℚ))) =
      fun x => (x - xs.sum / (xs.length : ℚ)) ^ 2 := by
    funext x
    ring
  rw [hmod, hcast, sum_map_div (fun x => (x - xs.sum / (xs.length : ℚ)) *
    (x - xs.sum / (xs.length : ℚ))), hfun]

/-- The mean of an empty sample is the quotient `0.0 / 0`, and with one sample
the loop of lines 154-161 divides by `size() - 1 = 0`. -/
theorem mean_variance_small {D : Type} (A : Arith D) (x : D) :
    mean A [] = A.div A.zero (A.ofNat 0) ∧
    variance A [x] = A.add A.zero
      (A.div (A.mul (A.sub x (mean A [x])) (A.sub x (mean A [x])))
        (A.ofNat ((1 + SIZE_MOD - 1) % SIZE_MOD))) ∧
    (1 + SIZE_MOD - 1) % SIZE_MOD = 0 :=
  ⟨rfl, rfl, by norm_num [SIZE_MOD]⟩

/-- In the sample arithmetic the mean of an empty sample and the variance of a
single sample are not finite numbers. -/
theorem small_samples_not_finite :
    mean roundedArith [] = none ∧ variance roundedArith [some 5] = none :=
  ⟨by decide!, by decide!⟩

/-- The means handed to the output, per measure. -/
theorem stats_means {D : Type} (A : Arith D) (sqrt : D → D) (group : Group D) :
    (statistics A sqrt group).stats.map (fun e => (e.1, e.2.1)) =
      (collect group.children).map (fun e => (e.1, mean A e.2)) := by
  unfold statistics
  rw [List.map_map]
  rfl

/-- C18 (amended): for each of the measures `fa`, `md`, `fro` the samples
collected by the loops are the values of the fields of that name over all
points of all fibers, and the map keeps exactly these three keys; the mean and the standard deviation
handed to the output are those of these samples, computed in the order of the
points with the operations of `double`: the sum from `0.0` on divided by `n`,
and the square root of the sum of the quotients `(x - mean)² / (n - 1)`.  In
exact arithmetic and for `n ≥ 2` samples (a `size_t` number) these are `sum / n`
and the square root of `Σ (x - mean)² / (n - 1)`, the same for every order of
the points. -/
theorem fiber_statistics {D : Type} (A : Arith D) (sqrt : D → D) (group : Group D)
    (name : String) (hname : name ∈ ["fa", "md", "fro"]) :
    samples (collect group.children) name = fieldValues group.children name ∧
    (collect group.children).map Prod.fst = ["fa", "fro", "md"] ∧
    (name, A.div ((fieldValues group.children name).foldl A.add A.zero)
        (A.ofNat (fieldValues group.children name).length),
      sqrt (variance A (fieldValues group.children name))) ∈ (statistics A sqrt group).stats ∧
    (∀ (sq : ℚ → ℚ) (g : Group ℚ),
      (2 ≤ (fieldValues g.children name).length →
        (fieldValues g.children name).length < SIZE_MOD →
        (name, (fieldValues g.children name).sum / ((fieldValues g.children name).length : ℚ),
          sq (((fieldValues g.children name).map (fun x =>
            (x - (fieldValues g.children name).sum /
              ((fieldValues g.children name).length : ℚ)) ^ 2)).sum /
            (((fieldValues g.children name).length : ℚ) - 1))) ∈
          (statistics exactArith sq g).stats) ∧
      ∀ fibers : List (Fiber ℚ), fibers.flatten.Perm g.children.flatten →
        mean exactArith (fieldValues fibers name) =
          mean exactArith (fieldValues g.children name) ∧
        variance exactArith (fieldValues fibers name) =
          variance exactArith (fieldValues g.children name)) := by
  have hstats : ∀ {E : Type} (B : Arith E) (sq : E → E) (g : Group E),
      (name, mean B (fieldValues g.children name),
        sq (variance B (fieldValues g.children name))) ∈ (statistics B sq g).stats := by
    intro E B sq g
    obtain ⟨hs, hc⟩ := samples_collect g.children name hname
    have hmem := mem_of_count (collect g.children) name hc
    rw [hs] at hmem
    unfold statistics
    simp only [List.mem_map]
    exact ⟨_, hmem, rfl⟩
  refine ⟨(samples_collect group.children name hname).1, keys_collect group.children,
    hstats A sqrt group, ?_⟩
  intro sq g
  constructor
  · intro h2 hsize
    have h := hstats exactArith sq g
    rw [mean_eq, variance_eq _ h2 hsize] at h
    exact h
  · intro fibers hperm
    have hp : (fieldValues fibers name).Perm (fieldValues g.children name) := by
      unfold fieldValues
      exact hperm.flatMap_right _
    exact ⟨mean_perm hp, variance_perm hp⟩

/-- C18 (amended), at a sample input: the `fa` samples of the sample group are
1, 3, 5, with mean 3 and variance 4 in exact arithmetic. -/
theorem fiber_statistics_witness :
    samples (collect sampleGroup.children) "fa" = [1, 3, 5] ∧
    mean exactArith (fieldValues sampleGroup.children "fa") = 3 ∧
    variance exactArith (fieldValues sampleGroup.children "fa") = 4 ∧
    ("fa", exactArith.div ((fieldValues sampleGroup.children "fa").foldl exactArith.add
        exactArith.zero) (exactArith.ofNat (fieldValues sampleGroup.children "fa").length),
      (fun x : ℚ => if x = 4 then 2 else 0)
        (variance exactArith (fieldValues sampleGroup.children "fa"))) ∈
      (statistics exactArith (fun x : ℚ => if x = 4 then 2 else 0) sampleGroup).stats :=
  ⟨by decide!, by decide!, by decide!,
   (fiber_statistics exactArith (fun x : ℚ => if x = 4 then 2 else 0) sampleGroup "fa"
     (by decide)).2.2.1⟩

/-- C18 (as stated, refuted), in `double` arithmetic: the `md` samples
`2^100`, `1`, `-2^100` have the mean 0, since `2^100 + 1` rounds to `2^100`, and
the same points with the last two exchanged have the mean `1/3`, rounded. -/
theorem mean_depends_on_order :
    cancellingGroup.children.flatten.Perm reorderedGroup.children.flatten ∧
    fieldValues cancellingGroup.children "md" = [some (2 ^ 100), some 1, some (-(2 ^ 100))] ∧
    fieldValues reorderedGroup.children "md" = [some (2 ^ 100), some (-(2 ^ 100)), some 1] ∧
    mean roundedArith (fieldValues cancellingGroup.children "md") = some 0 ∧
    mean roundedArith (fieldValues reorderedGroup.children "md") =
      some (6004799503160661 / 18014398509481984) ∧
    (∀ sqrt : Option ℚ → Option ℚ,
      ((statistics roundedArith sqrt cancellingGroup).stats.map (fun e => (e.1, e.2.1))) =
        [("fa", none), ("fro", none), ("md", some 0)] ∧
      ((statistics roundedArith sqrt reorderedGroup).stats.map (fun e => (e.1, e.2.1))) =
        [("fa", none), ("fro", none), ("md", some (6004799503160661 / 18014398509481984))]) :=
  ⟨List.Perm.cons _ (List.Perm.swap _ _ _), by decide!, by decide!, by decide!, by decide!,
   fun sqrt => ⟨(stats_means roundedArith sqrt cancellingGroup).trans (by decide!),
     (stats_means roundedArith sqrt reorderedGroup).trans (by decide!)⟩⟩

end FiberStats
